import Mathlib

/-! pbdb: the command parser and symbol resolver of `pbdb.go`

A shallow embedding of `src/pbdb.go`.

* Go strings are modelled by Lean `String`s (sequences of Unicode code points, i.e. the
  valid UTF-8 Go strings).  The three separators the program splits on (`";"`, `" "`, `":"`)
  are single ASCII bytes, so splitting the bytes and splitting the code points agree.
* The two Go maps of a session are modelled by partial functions `String → Option _`;
  `m[k] = v` is `Function.update m k (some v)` and the comma-ok lookup `_, ok := m[k]`
  is `(m k).isSome`.
* `reflect.Type` is an arbitrary type parameter `Ty`.
* A Go call that returns `(value, error)` is modelled by `Except Failure value`; a slice
  index expression that would be out of range is the failure `Failure.indexOutOfRange`,
  a non-nil `error` built by `fmt.Errorf` is `Failure.err msg`.
* Logging (`log.Printf`) has no effect on the results and is left out.
-/

namespace Pbdb

/-! ## Go library functions used by the program -/

/-- White space as defined by Go's `unicode.IsSpace`: in Latin-1 the characters
`\t \n \v \f \r`, space, U+0085 and U+00A0; above Latin-1 the `White_Space` table. -/
def isSpace (r : Char) : Bool :=
  let n := r.toNat
  if n ≤ 0xFF then
    n == 0x09 || n == 0x0A || n == 0x0B || n == 0x0C || n == 0x0D || n == 0x20
      || n == 0x85 || n == 0xA0
  else
    n == 0x1680 || (0x2000 ≤ n && n ≤ 0x200A) || n == 0x2028 || n == 0x2029
      || n == 0x202F || n == 0x205F || n == 0x3000

/-- Splitting a list of characters around every occurrence of the separator `sep`;
the result has one more element than there are separators. -/
def splitChars (sep : Char) : List Char → List (List Char)
  | [] => [[]]
  | c :: cs =>
    if c = sep then [] :: splitChars sep cs
    else
      match splitChars sep cs with
      | [] => [[c]]
      | w :: ws => (c :: w) :: ws

/-- Go's `strings.Split(s, sep)` for a separator of one character: the substrings of `s`
between the occurrences of `sep`, in order (`[s]` when `sep` does not occur). -/
def Split (s : String) (sep : Char) : List String :=
  (splitChars sep s.data).map String.mk

/-- Removing the leading and the trailing white space of a list of characters. -/
def trimChars (l : List Char) : List Char :=
  (l.dropWhile isSpace).rdropWhile isSpace

/-- Go's `strings.TrimSpace(s)`: `s` without its leading and trailing white space. -/
def TrimSpace (s : String) : String :=
  String.mk (trimChars s.data)

/-! ## Results of Go calls -/

/-- The ways a call can fail: a non-nil `error` (built by `fmt.Errorf`, carried as its
message), or the run-time fault of a slice index out of range. -/
inductive Failure where
  | err (msg : String)
  | indexOutOfRange
deriving DecidableEq, Repr

/-- The slice index expression `a[i]`. -/
def index (a : List String) (i : Nat) : Except Failure String :=
  match a.get? i with
  | some x => .ok x
  | none => .error Failure.indexOutOfRange

/-! ## The data model of `pbdb.go` -/

/-- Constant `OP_READ` of the `iota` block. -/
def OP_READ : Int := 0
/-- Constant `OP_WRITE` of the `iota` block. -/
def OP_WRITE : Int := 1
/-- Constant `OP_DECSTMT` of the `iota` block. -/
def OP_DECSTMT : Int := 2
/-- Constant `OP_DECDAT` of the `iota` block. -/
def OP_DECDAT : Int := 3
/-- Constant `NUMOPS` of the `iota` block. -/
def NUMOPS : Int := 4

/-- The table `opnames` of the keyword of every operation kind. -/
def opnames : List String := ["READ", "WRITE", "DECSTMT", "DECDAT"]

/-- The struct `operation`. -/
structure operation where
  action : Int
  src : String
  srcfield : String
  dst : String
  dstfield : String
deriving DecidableEq, Repr

/-- The struct `protocas`: the statement table, the data table, the last operation list
and the command. -/
structure protocas (Ty : Type) where
  statements : String → Option String
  data : String → Option Ty
  ops : List operation
  command : String

/-- The constructor `newProtocas`: both tables empty. -/
def newProtocas (Ty : Type) : protocas Ty :=
  { statements := fun _ => none, data := fun _ => none, ops := [], command := "" }

/-! ## The parser -/

/-- The function `trimspaceslice`: every element of the slice is trimmed. -/
def trimspaceslice (a : List String) : List String :=
  a.map TrimSpace

/-- The function `splitcolon`. -/
def splitcolon (a : String) : Except Failure (List String) :=
  let parts := Split a ':'
  if parts.length ≠ 2 then
    .error (Failure.err "args to operations are name:field")
  else
    .ok parts

/-- The method `resolveNames`: `none` is the `nil` error. -/
def resolveNames {Ty : Type} (p : protocas Ty) (op : operation) : Option Failure :=
  if op.action = OP_READ then
    if (p.statements op.src).isNone then
      some (Failure.err ("READ operation got unknown source statement:" ++ op.src))
    else if (p.data op.dst).isNone then
      some (Failure.err ("READ operation got unknown destination data:" ++ op.dst))
    else none
  else if op.action = OP_WRITE then
    if (p.data op.src).isNone then
      some (Failure.err ("WRITE operation got unknown source data:" ++ op.src))
    else if (p.statements op.dst).isNone then
      some (Failure.err ("WRITE operation got unknown destination statement:" ++ op.dst))
    else none
  else none

/-- The method `parsecolons`: both operands are split, the four fields of `op` are
assigned, and the names are resolved. -/
def parsecolons {Ty : Type} (p : protocas Ty) (op : operation) (src dst : String) :
    Except Failure operation :=
  match splitcolon src with
  | .error e => .error e
  | .ok srcp =>
    match splitcolon dst with
    | .error e => .error e
    | .ok dstp =>
      match index srcp 0, index srcp 1, index dstp 0, index dstp 1 with
      | .ok s0, .ok s1, .ok d0, .ok d1 =>
        let op1 : operation :=
          { op with src := s0, srcfield := s1, dst := d0, dstfield := d1 }
        match resolveNames p op1 with
        | some e => .error e
        | none => .ok op1
      | _, _, _, _ => .error Failure.indexOutOfRange

/-- The method `parseread`. -/
def parseread {Ty : Type} (p : protocas Ty) (src dst : String) : Except Failure operation :=
  parsecolons p { action := OP_READ, src := "", srcfield := "", dst := "", dstfield := "" }
    src dst

/-- The method `parsewrite`. -/
def parsewrite {Ty : Type} (p : protocas Ty) (src dst : String) : Except Failure operation :=
  parsecolons p { action := OP_WRITE, src := "", srcfield := "", dst := "", dstfield := "" }
    src dst

/-- The method `parsecmd`. -/
def parsecmd {Ty : Type} (p : protocas Ty) (cmd : String) : Except Failure operation :=
  let parts := trimspaceslice (Split cmd ' ')
  if parts.length < 2 then
    match index parts 0 with
    | .error e => .error e
    | .ok p0 => .error (Failure.err ("malformed command:" ++ p0 ++ " with less than two parts"))
  else
    match index parts 0 with
    | .error e => .error e
    | .ok p0 =>
      if p0 = "READ" then
        if parts.length ≠ 3 then
          .error (Failure.err "malformed command. syntax: READ src:field dst:field")
        else
          match index parts 1, index parts 2 with
          | .ok p1, .ok p2 => parseread p p1 p2
          | _, _ => .error Failure.indexOutOfRange
      else if p0 = "WRITE" then
        if parts.length ≠ 3 then
          .error (Failure.err "malformed command. syntax: WRITE src:field dst:field")
        else
          match index parts 1, index parts 2 with
          | .ok p1, .ok p2 => parsewrite p p1 p2
          | _, _ => .error Failure.indexOutOfRange
      else
        .error (Failure.err ("unknown command:" ++ p0))

/-- The `for` loop of `Parse`: the commands are parsed in order, each operation is
appended to `ops`, and the first error ends the loop. -/
def Parse.loop {Ty : Type} (p : protocas Ty) :
    List String → List operation → Except Failure (List operation)
  | [], ops => .ok ops
  | cmdstr :: rest, ops =>
    match parsecmd p cmdstr with
    | .error e => .error e
    | .ok op => Parse.loop p rest (ops ++ [op])

/-- The method `Parse`. -/
def Parse {Ty : Type} (p : protocas Ty) (cmd : String) : Except Failure (List operation) :=
  Parse.loop p (trimspaceslice (Split cmd ';')) []

/-! ## Registration -/

/-- The method `AddDataType`; `typ` is `reflect.TypeOf(obj)`.  The result is the returned
error (`none` for `nil`) and the session after the call. -/
def AddDataType {Ty : Type} (p : protocas Ty) (name : String) (typ : Ty) :
    Option Failure × protocas Ty :=
  if (p.data name).isSome then
    (some (Failure.err ("data name:" ++ name ++ " already declared")), p)
  else
    (none, { p with data := Function.update p.data name (some typ) })

/-- The method `AddStatement`.  The result is the returned error (`none` for `nil`) and
the session after the call. -/
def AddStatement {Ty : Type} (p : protocas Ty) (name value : String) :
    Option Failure × protocas Ty :=
  if (p.statements name).isSome then
    (some (Failure.err ("statement named:" ++ name ++ " already declared")), p)
  else
    (none, { p with statements := Function.update p.statements name (some value) })

/-! ## Notions used to state the properties -/

/-- The malformed-command errors: the three errors of `parsecmd` whose message starts
with `malformed command` (fewer than two parts, READ syntax, WRITE syntax). -/
def isMalformedCommand (e : Failure) : Bool :=
  match e with
  | .err msg => "malformed command".data.isPrefixOf msg.data
  | .indexOutOfRange => false

/-- A string without white space, without `:` and without `;`. -/
def plainWord (s : String) : Prop :=
  ∀ c ∈ s.data, isSpace c = false ∧ c ≠ ':' ∧ c ≠ ';'

instance : DecidablePred plainWord := fun s => by
  unfold plainWord
  infer_instance

/-- The string of `n` space characters. -/
def spaces (n : Nat) : String :=
  String.mk (List.replicate n ' ')

/-- Joining lists of characters with the separator `sep` between consecutive elements. -/
def joinChars (sep : Char) : List (List Char) → List Char
  | [] => []
  | [w] => w
  | w :: v :: ws => w ++ sep :: joinChars sep (v :: ws)

/-- Go's `strings.Join(a, sep)` for a separator of one character. -/
def Join (a : List String) (sep : Char) : String :=
  String.mk (joinChars sep (a.map String.data))

/-- The string `c'` is the string `c` with white space added before and after it. -/
def padded (c c' : String) : Prop :=
  ∃ l r : String, (∀ x ∈ l.data, isSpace x = true) ∧ (∀ x ∈ r.data, isSpace x = true) ∧
    c' = l ++ c ++ r

/-- The text `<KIND> <src>:<srcfield> <dst>:<dstfield>` of an operation, `<KIND>` being
the entry of `opnames` for its action. -/
def render (op : operation) : String :=
  opnames.getD op.action.toNat "" ++ " " ++ op.src ++ ":" ++ op.srcfield ++ " "
    ++ op.dst ++ ":" ++ op.dstfield

/-- The session that `main` builds before it parses: two data types and one statement
(the errors of the three registrations are dropped, as in `main`). -/
def mainSession : protocas String :=
  let p0 := newProtocas String
  let p1 := (AddDataType p0 "kotor" "pb.DataFoo").2
  let p2 := (AddDataType p1 "kastor" "pb.DataBar").2
  (AddStatement p2 "kotstmt" "foozong").2

/-! ## Lemmas on the library functions -/

theorem splitChars_ne_nil (sep : Char) (l : List Char) : splitChars sep l ≠ [] := by
  induction l with
  | nil => simp [splitChars]
  | cons c cs ih =>
    unfold splitChars
    split
    · simp
    · split
      · simp
      · simp

theorem splitChars_cons_ne (sep c : Char) (cs : List Char) (h : c ≠ sep) :
    splitChars sep (c :: cs) =
      (c :: (splitChars sep cs).headD []) :: (splitChars sep cs).tail := by
  have hne := splitChars_ne_nil sep cs
  rw [splitChars, if_neg h]
  cases hs : splitChars sep cs with
  | nil => exact absurd hs hne
  | cons w ws => simp

theorem splitChars_of_not_mem (sep : Char) (l : List Char) (h : sep ∉ l) :
    splitChars sep l = [l] := by
  induction l with
  | nil => rfl
  | cons c cs ih =>
    have hc : c ≠ sep := fun e => h (by simp [e])
    have hcs : sep ∉ cs := fun e => h (by simp [e])
    rw [splitChars_cons_ne sep c cs hc, ih hcs]
    rfl

theorem splitChars_append_sep (sep : Char) (a b : List Char) (h : sep ∉ a) :
    splitChars sep (a ++ sep :: b) = a :: splitChars sep b := by
  induction a with
  | nil => simp [splitChars]
  | cons c cs ih =>
    have hc : c ≠ sep := fun e => h (by simp [e])
    have hcs : sep ∉ cs := fun e => h (by simp [e])
    rw [List.cons_append, splitChars_cons_ne sep c _ hc, ih hcs]
    rfl

theorem trimChars_eq_self (l : List Char)
    (hhead : ∀ c ∈ l.head?, isSpace c = false)
    (hlast : ∀ c ∈ l.getLast?, isSpace c = false) : trimChars l = l := by
  unfold trimChars
  have h1 : l.dropWhile isSpace = l := by
    cases l with
    | nil => rfl
    | cons c cs =>
      have := hhead c (by simp)
      simp [List.dropWhile_cons, this]
  rw [h1, List.rdropWhile_eq_self_iff]
  intro hl
  have := hlast (l.getLast hl) (by simp [List.getLast?_eq_getLast _ hl])
  simp [this]

theorem trimChars_of_no_space (l : List Char) (h : ∀ c ∈ l, isSpace c = false) :
    trimChars l = l := by
  apply trimChars_eq_self
  · intro c hc
    exact h c (List.mem_of_mem_head? hc)
  · intro c hc
    exact h c (List.mem_of_mem_getLast? hc)


/-! ## Lemmas on the loop of `Parse` -/

theorem Parse.loop_ok {Ty : Type} (p : protocas Ty) (cs : List String) (os : List operation)
    (h : List.Forall₂ (fun c o => parsecmd p c = .ok o) cs os) (acc : List operation) :
    Parse.loop p cs acc = .ok (acc ++ os) := by
  induction h generalizing acc with
  | nil => simp [Parse.loop]
  | cons hc _ ih => simp [Parse.loop, hc, ih]

theorem Parse.loop_ok_inv {Ty : Type} (p : protocas Ty) (cs : List String)
    (acc ops : List operation) (h : Parse.loop p cs acc = .ok ops) :
    ∃ os, List.Forall₂ (fun c o => parsecmd p c = .ok o) cs os ∧ ops = acc ++ os := by
  induction cs generalizing acc with
  | nil =>
    simp only [Parse.loop, Except.ok.injEq] at h
    exact ⟨[], List.Forall₂.nil, by simp [h]⟩
  | cons c cs ih =>
    rw [Parse.loop] at h
    cases hc : parsecmd p c with
    | error e => simp [hc] at h
    | ok o =>
      simp only [hc] at h
      obtain ⟨os, hos, rfl⟩ := ih _ h
      exact ⟨o :: os, List.Forall₂.cons hc hos, by simp⟩

theorem Parse.loop_error {Ty : Type} (p : protocas Ty) (pre : List String) (c : String)
    (post : List String) (e : Failure)
    (hpre : ∀ x ∈ pre, ∃ o, parsecmd p x = .ok o) (hc : parsecmd p c = .error e)
    (acc : List operation) : Parse.loop p (pre ++ c :: post) acc = .error e := by
  induction pre generalizing acc with
  | nil => simp [Parse.loop, hc]
  | cons x xs ih =>
    obtain ⟨o, ho⟩ := hpre x (by simp)
    simp only [List.cons_append, Parse.loop, ho]
    exact ih (fun y hy => hpre y (by simp [hy])) _

theorem exists_cmd_of_mem {Ty : Type} (p : protocas Ty) (cs : List String)
    (os : List operation) (h : List.Forall₂ (fun c o => parsecmd p c = .ok o) cs os) :
    ∀ op ∈ os, ∃ c ∈ cs, parsecmd p c = .ok op := by
  induction h with
  | nil => simp
  | cons hc _ ih =>
    intro op hop
    rcases List.mem_cons.1 hop with rfl | hop
    · exact ⟨_, by simp, hc⟩
    · obtain ⟨c, hcm, hcp⟩ := ih op hop
      exact ⟨c, by simp [hcm], hcp⟩

/-- The first failing command of a list that has one. -/
theorem exists_first_error {Ty : Type} (p : protocas Ty) (cs : List String)
    (h : ∃ c ∈ cs, ∃ e, parsecmd p c = .error e) :
    ∃ pre c post e, cs = pre ++ c :: post ∧ (∀ x ∈ pre, ∃ o, parsecmd p x = .ok o) ∧
      parsecmd p c = .error e := by
  induction cs with
  | nil => simp at h
  | cons x xs ih =>
    cases hx : parsecmd p x with
    | error e => exact ⟨[], x, xs, e, rfl, by simp, hx⟩
    | ok o =>
      have h2 : ∃ c ∈ xs, ∃ e, parsecmd p c = .error e := by
        obtain ⟨c, hc, e, he⟩ := h
        rcases List.mem_cons.1 hc with rfl | hc
        · rw [hx] at he; cases he
        · exact ⟨c, hc, e, he⟩
      obtain ⟨pre, c, post, e, hcs, hpre, hc⟩ := ih h2
      refine ⟨x :: pre, c, post, e, by simp [hcs], ?_, hc⟩
      intro y hy
      rcases List.mem_cons.1 hy with rfl | hy
      · exact ⟨o, hx⟩
      · exact hpre y hy

/-! ## Lemmas on one command -/

theorem resolveNames_none {Ty : Type} (p : protocas Ty) (op : operation)
    (h : resolveNames p op = none) :
    (op.action = OP_READ → (p.statements op.src).isSome ∧ (p.data op.dst).isSome) ∧
    (op.action = OP_WRITE → (p.data op.src).isSome ∧ (p.statements op.dst).isSome) := by
  unfold resolveNames at h
  constructor
  · intro ha
    rw [if_pos ha] at h
    split at h
    · cases h
    · split at h
      · cases h
      · rename_i h1 h2
        simp only [Option.isNone_iff_eq_none] at h1 h2
        exact ⟨Option.ne_none_iff_isSome.1 h1, Option.ne_none_iff_isSome.1 h2⟩
  · intro ha
    have hr : ¬ op.action = OP_READ := by rw [ha]; decide
    rw [if_neg hr, if_pos ha] at h
    split at h
    · cases h
    · split at h
      · cases h
      · rename_i h1 h2
        simp only [Option.isNone_iff_eq_none] at h1 h2
        exact ⟨Option.ne_none_iff_isSome.1 h1, Option.ne_none_iff_isSome.1 h2⟩

theorem parsecolons_ok_inv {Ty : Type} (p : protocas Ty) (op0 op : operation)
    (src dst : String) (h : parsecolons p op0 src dst = .ok op) :
    op.action = op0.action ∧ resolveNames p op = none := by
  unfold parsecolons at h
  split at h
  · cases h
  · split at h
    · cases h
    · split at h
      · simp only at h
        split at h
        · cases h
        · rename_i hr
          simp only [Except.ok.injEq] at h
          subst h
          exact ⟨rfl, hr⟩
      · cases h

theorem parsecmd_ok_inv {Ty : Type} (p : protocas Ty) (cmd : String) (op : operation)
    (h : parsecmd p cmd = .ok op) :
    (op.action = OP_READ ∨ op.action = OP_WRITE) ∧ resolveNames p op = none := by
  unfold parsecmd at h
  simp only at h
  split at h
  · split at h <;> cases h
  · split at h
    · cases h
    · split at h
      · split at h
        · cases h
        · split at h
          · obtain ⟨ha, hr⟩ := parsecolons_ok_inv p _ op _ _ h
            exact ⟨Or.inl ha, hr⟩
          · cases h
      · split at h
        · split at h
          · cases h
          · split at h
            · obtain ⟨ha, hr⟩ := parsecolons_ok_inv p _ op _ _ h
              exact ⟨Or.inr ha, hr⟩
            · cases h
        · cases h


/-! ## The properties of `Parse`, `parsecmd` and the registrations -/

/-- C1: for every session and every script, if each of the semicolon-separated, trimmed
commands of the script parses on its own (the i-th one to the i-th element of `ops`), then
`Parse` succeeds with exactly `ops`: as many operations as commands, in input order.  The
demonstration script of `main` gives two WRITE operations, `kotor` then `kastor`. -/
theorem C1_Parse_all_commands_ok :
    (∀ {Ty : Type} (p : protocas Ty) (script : String) (ops : List operation),
      List.Forall₂ (fun c o => parsecmd p c = .ok o) (trimspaceslice (Split script ';')) ops →
      Parse p script = .ok ops ∧ ops.length = (Split script ';').length) ∧
    Parse mainSession "WRITE kotor:field kotstmt:field; WRITE kastor:field kotstmt:field" =
      .ok [{ action := OP_WRITE, src := "kotor", srcfield := "field",
             dst := "kotstmt", dstfield := "field" },
           { action := OP_WRITE, src := "kastor", srcfield := "field",
             dst := "kotstmt", dstfield := "field" }] := by
  refine ⟨?_, rfl⟩
  intro Ty p script ops h
  refine ⟨?_, ?_⟩
  · have := Parse.loop_ok p _ ops h []
    simpa [Parse] using this
  · have := h.length_eq
    simpa [trimspaceslice] using this.symm

/-- C1, at the script of `main` in the session of `main`. -/
theorem C1_Parse_all_commands_ok_witness :
    Parse mainSession "WRITE kotor:field kotstmt:field; WRITE kastor:field kotstmt:field" =
      .ok [⟨OP_WRITE, "kotor", "field", "kotstmt", "field"⟩,
           ⟨OP_WRITE, "kastor", "field", "kotstmt", "field"⟩] ∧
    [(⟨OP_WRITE, "kotor", "field", "kotstmt", "field"⟩ : operation),
           ⟨OP_WRITE, "kastor", "field", "kotstmt", "field"⟩].length =
      (Split "WRITE kotor:field kotstmt:field; WRITE kastor:field kotstmt:field" ';').length :=
  C1_Parse_all_commands_ok.1 mainSession
    "WRITE kotor:field kotstmt:field; WRITE kastor:field kotstmt:field" _
    (List.Forall₂.cons rfl (List.Forall₂.cons rfl List.Forall₂.nil))

/-- C2: every operation of the list returned by a successful `Parse` is resolved: its kind
is READ or WRITE; a READ has its source in the statement table and its destination in the
data table; a WRITE has its source in the data table and its destination in the statement
table. -/
theorem C2_Parse_operations_resolved {Ty : Type} (p : protocas Ty) (script : String)
    (ops : List operation) (h : Parse p script = .ok ops) :
    ∀ op ∈ ops,
      (op.action = OP_READ ∨ op.action = OP_WRITE) ∧
      (op.action = OP_READ → (p.statements op.src).isSome ∧ (p.data op.dst).isSome) ∧
      (op.action = OP_WRITE → (p.data op.src).isSome ∧ (p.statements op.dst).isSome) := by
  obtain ⟨os, hos, rfl⟩ := Parse.loop_ok_inv p _ [] ops h
  intro op hop
  obtain ⟨c, _, hc⟩ := exists_cmd_of_mem p _ _ hos op hop
  obtain ⟨hk, hr⟩ := parsecmd_ok_inv p c op hc
  exact ⟨hk, resolveNames_none p op hr⟩

/-- C2, at the first operation of the script of `main` in the session of `main`. -/
theorem C2_Parse_operations_resolved_witness :
    ((⟨OP_WRITE, "kotor", "field", "kotstmt", "field"⟩ : operation).action = OP_READ ∨
      (⟨OP_WRITE, "kotor", "field", "kotstmt", "field"⟩ : operation).action = OP_WRITE) ∧
    (mainSession.data "kotor").isSome ∧ (mainSession.statements "kotstmt").isSome :=
  have h := C2_Parse_operations_resolved mainSession
    "WRITE kotor:field kotstmt:field; WRITE kastor:field kotstmt:field" _ rfl
    ⟨OP_WRITE, "kotor", "field", "kotstmt", "field"⟩ (by decide)
  ⟨h.1, h.2.2 rfl⟩

/-- C3: `Parse` is fail-fast: when at least one command of the script fails, the commands
split into the ones before the first failing command (all of which parse), that command
and the rest, and `Parse` returns the error of that first failing command and no list. -/
theorem C3_Parse_fail_fast {Ty : Type} (p : protocas Ty) (script : String)
    (h : ∃ c ∈ trimspaceslice (Split script ';'), ∃ e, parsecmd p c = .error e) :
    ∃ pre c post e,
      trimspaceslice (Split script ';') = pre ++ c :: post ∧
      (∀ x ∈ pre, ∃ o, parsecmd p x = .ok o) ∧
      parsecmd p c = .error e ∧
      Parse p script = .error e := by
  obtain ⟨pre, c, post, e, hcs, hpre, hc⟩ := exists_first_error p _ h
  refine ⟨pre, c, post, e, hcs, hpre, hc, ?_⟩
  unfold Parse
  rw [hcs]
  exact Parse.loop_error p pre c post e hpre hc []

/-- C3, at a script whose second command of three is the first one to fail. -/
theorem C3_Parse_fail_fast_witness :
    ∃ pre c post e,
      trimspaceslice (Split "WRITE kotor:f kotstmt:g; FOO a:f b:f; READ x" ';')
        = pre ++ c :: post ∧
      (∀ x ∈ pre, ∃ o, parsecmd mainSession x = .ok o) ∧
      parsecmd mainSession c = .error e ∧
      Parse mainSession "WRITE kotor:f kotstmt:g; FOO a:f b:f; READ x" = .error e :=
  C3_Parse_fail_fast mainSession "WRITE kotor:f kotstmt:g; FOO a:f b:f; READ x"
    ⟨"FOO a:f b:f", by decide, Failure.err "unknown command:FOO", rfl⟩


theorem data_name_field (a f : String) : (a ++ ":" ++ f).data = a.data ++ ':' :: f.data := by
  simp [String.data_append]

theorem Split_name_field (a f : String) (ha : ':' ∉ a.data) (hf : ':' ∉ f.data) :
    Split (a ++ ":" ++ f) ':' = [a, f] := by
  unfold Split
  rw [data_name_field, splitChars_append_sep _ _ _ ha, splitChars_of_not_mem _ _ hf]
  rfl

theorem splitcolon_name_field (a f : String) (ha : ':' ∉ a.data) (hf : ':' ∉ f.data) :
    splitcolon (a ++ ":" ++ f) = .ok [a, f] := by
  simp [splitcolon, Split_name_field a f ha hf]

theorem parsecolons_name_field {Ty : Type} (p : protocas Ty) (op : operation)
    (a f b g : String) (ha : ':' ∉ a.data) (hf : ':' ∉ f.data) (hb : ':' ∉ b.data)
    (hg : ':' ∉ g.data) :
    parsecolons p op (a ++ ":" ++ f) (b ++ ":" ++ g) =
      match resolveNames p { op with src := a, srcfield := f, dst := b, dstfield := g } with
      | some e => .error e
      | none => .ok { op with src := a, srcfield := f, dst := b, dstfield := g } := by
  simp only [parsecolons, splitcolon_name_field a f ha hf, splitcolon_name_field b g hb hg,
    index, List.get?]

theorem parsecmd_tokens {Ty : Type} (p : protocas Ty) (cmd t u : String) (us : List String)
    (h : trimspaceslice (Split cmd ' ') = t :: u :: us) :
    parsecmd p cmd =
      if t = "READ" then
        match us with
        | [v] => parseread p u v
        | _ => .error (Failure.err "malformed command. syntax: READ src:field dst:field")
      else if t = "WRITE" then
        match us with
        | [v] => parsewrite p u v
        | _ => .error (Failure.err "malformed command. syntax: WRITE src:field dst:field")
      else .error (Failure.err ("unknown command:" ++ t)) := by
  unfold parsecmd
  simp only [h]
  rcases us with _ | ⟨v, _ | ⟨w, ws⟩⟩ <;> simp [index]


/-- C4: for a command of three tokens whose operands are `a:f` and `b:g` (no further
colon): a READ fails with the unknown-source-statement error of `a` when `a` is not a
statement, whatever `b` is, and otherwise with the unknown-destination-data error of `b`
when `b` is not a data name; a WRITE fails with the unknown-source-data error of `a` when
`a` is not a data name, and otherwise with the unknown-destination-statement error of `b`
when `b` is not a statement.  The source is checked first. -/
theorem C4_resolution_errors {Ty : Type} (p : protocas Ty) (cmd a f b g : String)
    (ha : ':' ∉ a.data) (hf : ':' ∉ f.data) (hb : ':' ∉ b.data) (hg : ':' ∉ g.data) :
    (trimspaceslice (Split cmd ' ') = ["READ", a ++ ":" ++ f, b ++ ":" ++ g] →
      (p.statements a = none →
        parsecmd p cmd =
          .error (Failure.err ("READ operation got unknown source statement:" ++ a))) ∧
      (p.statements a ≠ none → p.data b = none →
        parsecmd p cmd =
          .error (Failure.err ("READ operation got unknown destination data:" ++ b)))) ∧
    (trimspaceslice (Split cmd ' ') = ["WRITE", a ++ ":" ++ f, b ++ ":" ++ g] →
      (p.data a = none →
        parsecmd p cmd =
          .error (Failure.err ("WRITE operation got unknown source data:" ++ a))) ∧
      (p.data a ≠ none → p.statements b = none →
        parsecmd p cmd =
          .error (Failure.err ("WRITE operation got unknown destination statement:" ++ b)))) := by
  refine ⟨fun h => ⟨fun h1 => ?_, fun h1 h2 => ?_⟩, fun h => ⟨fun h1 => ?_, fun h1 h2 => ?_⟩⟩
  · rw [parsecmd_tokens p cmd _ _ _ h]
    simp [parseread, parsecolons_name_field p _ a f b g ha hf hb hg, resolveNames, h1]
  · rw [parsecmd_tokens p cmd _ _ _ h]
    simp [parseread, parsecolons_name_field p _ a f b g ha hf hb hg, resolveNames, h1, h2]
  · rw [parsecmd_tokens p cmd _ _ _ h]
    simp [parsewrite, parsecolons_name_field p _ a f b g ha hf hb hg, resolveNames, h1,
      OP_READ, OP_WRITE]
  · rw [parsecmd_tokens p cmd _ _ _ h]
    simp [parsewrite, parsecolons_name_field p _ a f b g ha hf hb hg, resolveNames, h1, h2,
      OP_READ, OP_WRITE]

/-- C4, in the session of `main`: `kotor` is a data name and not a statement, `kotstmt`
is a statement and not a data name, `nope` is in neither table. -/
theorem C4_resolution_errors_witness :
    parsecmd mainSession "READ kotor:f kotor:g" =
      .error (Failure.err "READ operation got unknown source statement:kotor") ∧
    parsecmd mainSession "READ kotstmt:f nope:g" =
      .error (Failure.err "READ operation got unknown destination data:nope") ∧
    parsecmd mainSession "WRITE kotstmt:f kotstmt:g" =
      .error (Failure.err "WRITE operation got unknown source data:kotstmt") ∧
    parsecmd mainSession "WRITE kotor:f nope:g" =
      .error (Failure.err "WRITE operation got unknown destination statement:nope") :=
  ⟨((C4_resolution_errors mainSession "READ kotor:f kotor:g" "kotor" "f" "kotor" "g"
      (by decide) (by decide) (by decide) (by decide)).1 rfl).1 rfl,
   ((C4_resolution_errors mainSession "READ kotstmt:f nope:g" "kotstmt" "f" "nope" "g"
      (by decide) (by decide) (by decide) (by decide)).1 rfl).2 (by decide) rfl,
   ((C4_resolution_errors mainSession "WRITE kotstmt:f kotstmt:g" "kotstmt" "f" "kotstmt" "g"
      (by decide) (by decide) (by decide) (by decide)).2 rfl).1 rfl,
   ((C4_resolution_errors mainSession "WRITE kotor:f nope:g" "kotor" "f" "nope" "g"
      (by decide) (by decide) (by decide) (by decide)).2 rfl).2 (by decide) rfl⟩


theorem TrimSpace_of_no_space (s : String) (h : ∀ c ∈ s.data, isSpace c = false) :
    TrimSpace s = s := by
  unfold TrimSpace
  rw [trimChars_of_no_space _ h]

theorem Split_three_tokens (k t u : String) (hk : ' ' ∉ k.data) (ht : ' ' ∉ t.data)
    (hu : ' ' ∉ u.data) : Split (k ++ " " ++ t ++ " " ++ u) ' ' = [k, t, u] := by
  unfold Split
  have hd : (k ++ " " ++ t ++ " " ++ u).data = k.data ++ ' ' :: (t.data ++ ' ' :: u.data) := by
    simp [String.data_append]
  rw [hd, splitChars_append_sep _ _ _ hk, splitChars_append_sep _ _ _ ht,
    splitChars_of_not_mem _ _ hu]
  rfl

theorem not_mem_of_no_space (l : List Char) (h : ∀ c ∈ l, isSpace c = false) : ' ' ∉ l := by
  intro hm
  have := h ' ' hm
  revert this
  decide

theorem tokens_three (k t u : String) (hk : ∀ c ∈ k.data, isSpace c = false)
    (ht : ∀ c ∈ t.data, isSpace c = false) (hu : ∀ c ∈ u.data, isSpace c = false) :
    trimspaceslice (Split (k ++ " " ++ t ++ " " ++ u) ' ') = [k, t, u] := by
  rw [Split_three_tokens k t u (not_mem_of_no_space _ hk) (not_mem_of_no_space _ ht)
    (not_mem_of_no_space _ hu)]
  simp only [trimspaceslice, List.map, TrimSpace_of_no_space k hk, TrimSpace_of_no_space t ht,
    TrimSpace_of_no_space u hu]

theorem Parse_single {Ty : Type} (p : protocas Ty) (cmd : String) (hsemi : ';' ∉ cmd.data)
    (htrim : TrimSpace cmd = cmd) :
    Parse p cmd =
      match parsecmd p cmd with
      | .ok o => .ok [o]
      | .error e => .error e := by
  unfold Parse Split
  rw [splitChars_of_not_mem _ _ hsemi]
  simp only [List.map, trimspaceslice, htrim, Parse.loop]
  cases parsecmd p cmd <;> simp [Parse.loop]

/-- The command `k a:f b:g` of plain words is its own trimmed form, has no `;`, and its
tokens are `k`, `a:f` and `b:g`. -/
theorem command_shape (k a f b g : String) (hk : plainWord k) (hk0 : k.data ≠ [])
    (ha : plainWord a) (hf : plainWord f) (hb : plainWord b) (hg : plainWord g) :
    ';' ∉ (k ++ " " ++ (a ++ ":" ++ f) ++ " " ++ (b ++ ":" ++ g)).data ∧
    TrimSpace (k ++ " " ++ (a ++ ":" ++ f) ++ " " ++ (b ++ ":" ++ g))
      = k ++ " " ++ (a ++ ":" ++ f) ++ " " ++ (b ++ ":" ++ g) ∧
    trimspaceslice (Split (k ++ " " ++ (a ++ ":" ++ f) ++ " " ++ (b ++ ":" ++ g)) ' ')
      = [k, a ++ ":" ++ f, b ++ ":" ++ g] := by
  have hsp : ∀ x y : String, plainWord x → plainWord y →
      ∀ c ∈ (x ++ ":" ++ y).data, isSpace c = false := by
    intro x y hx hy c hc
    rw [data_name_field] at hc
    rcases List.mem_append.1 hc with h | h
    · exact (hx c h).1
    · rcases List.mem_cons.1 h with rfl | h
      · decide
      · exact (hy c h).1
  have hd : (k ++ " " ++ (a ++ ":" ++ f) ++ " " ++ (b ++ ":" ++ g)).data
      = k.data ++ ' ' :: (a.data ++ ':' :: (f.data ++ ' ' :: (b.data ++ ':' :: g.data))) := by
    simp [String.data_append]
  refine ⟨?_, ?_, tokens_three _ _ _ (fun c hc => (hk c hc).1) (hsp a f ha hf) (hsp b g hb hg)⟩
  · rw [hd]
    intro hm
    simp only [List.mem_append, List.mem_cons] at hm
    rcases hm with h | h | h | h | h | h | h | h | h
    · exact (hk _ h).2.2 rfl
    · revert h; decide
    · exact (ha _ h).2.2 rfl
    · revert h; decide
    · exact (hf _ h).2.2 rfl
    · revert h; decide
    · exact (hb _ h).2.2 rfl
    · revert h; decide
    · exact (hg _ h).2.2 rfl
  · unfold TrimSpace
    rw [trimChars_eq_self]
    · intro c hc
      rw [hd] at hc
      cases hkd : k.data with
      | nil => exact absurd hkd hk0
      | cons x xs =>
        rw [hkd] at hc
        simp only [List.cons_append, List.head?_cons, Option.mem_def, Option.some.injEq] at hc
        subst hc
        exact (hk x (by simp [hkd])).1
    · intro c hc
      have hd2 : k.data ++ ' ' :: (a.data ++ ':' :: (f.data ++ ' ' :: (b.data ++ ':' :: g.data)))
          = (k.data ++ ' ' :: (a.data ++ ':' :: (f.data ++ ' ' :: b.data))) ++ ':' :: g.data := by
        simp
      rw [hd, hd2, List.getLast?_append_of_ne_nil _ (by simp)] at hc
      have hm := List.mem_of_mem_getLast? hc
      rcases List.mem_cons.1 hm with rfl | h
      · decide
      · exact (hg c h).1


theorem parsecmd_keyword_ok {Ty : Type} (p : protocas Ty) (k a f b g : String)
    (hk : plainWord k) (hk0 : k.data ≠ [])
    (ha : plainWord a) (hf : plainWord f) (hb : plainWord b) (hg : plainWord g) :
    Parse p (k ++ " " ++ (a ++ ":" ++ f) ++ " " ++ (b ++ ":" ++ g)) =
      match parsecmd p (k ++ " " ++ (a ++ ":" ++ f) ++ " " ++ (b ++ ":" ++ g)) with
      | .ok o => .ok [o]
      | .error e => .error e := by
  obtain ⟨h1, h2, _⟩ := command_shape k a f b g hk hk0 ha hf hb hg
  exact Parse_single p _ h1 h2

/-- C5: for plain words `d`, `f`, `s`, `g` (no white space, no `:`, no `;`), with `d` a
registered data name and `s` a registered statement name, `Parse` of `WRITE d:f s:g`
returns exactly the one operation WRITE from `d`, `f` to `s`, `g`, and `Parse` of
`READ s:g d:f` returns exactly the one operation READ from `s`, `g` to `d`, `f`. -/
theorem C5_Parse_single_command {Ty : Type} (p : protocas Ty) (d f s g : String)
    (hd : plainWord d) (hf : plainWord f) (hs : plainWord s) (hg : plainWord g)
    (hdata : (p.data d).isSome) (hstmt : (p.statements s).isSome) :
    Parse p ("WRITE " ++ d ++ ":" ++ f ++ " " ++ s ++ ":" ++ g) =
      .ok [{ action := OP_WRITE, src := d, srcfield := f, dst := s, dstfield := g }] ∧
    Parse p ("READ " ++ s ++ ":" ++ g ++ " " ++ d ++ ":" ++ f) =
      .ok [{ action := OP_READ, src := s, srcfield := g, dst := d, dstfield := f }] := by
  have colon : ∀ x : String, plainWord x → ':' ∉ x.data := fun x hx hm => (hx _ hm).2.1 rfl
  have hw : "WRITE " ++ d ++ ":" ++ f ++ " " ++ s ++ ":" ++ g
      = "WRITE" ++ " " ++ (d ++ ":" ++ f) ++ " " ++ (s ++ ":" ++ g) := by
    apply String.ext
    simp [String.data_append]
  have hr : "READ " ++ s ++ ":" ++ g ++ " " ++ d ++ ":" ++ f
      = "READ" ++ " " ++ (s ++ ":" ++ g) ++ " " ++ (d ++ ":" ++ f) := by
    apply String.ext
    simp [String.data_append]
  constructor
  · obtain ⟨_, _, h3⟩ := command_shape "WRITE" d f s g (by decide) (by decide) hd hf hs hg
    rw [hw, parsecmd_keyword_ok p "WRITE" d f s g (by decide) (by decide) hd hf hs hg,
      parsecmd_tokens p _ _ _ _ h3]
    simp [parsewrite, parsecolons_name_field p _ d f s g (colon d hd) (colon f hf)
      (colon s hs) (colon g hg), resolveNames, OP_READ, OP_WRITE,
      Option.isSome_iff_ne_none.1 hdata, Option.isSome_iff_ne_none.1 hstmt]
  · obtain ⟨_, _, h3⟩ := command_shape "READ" s g d f (by decide) (by decide) hs hg hd hf
    rw [hr, parsecmd_keyword_ok p "READ" s g d f (by decide) (by decide) hs hg hd hf,
      parsecmd_tokens p _ _ _ _ h3]
    simp [parseread, parsecolons_name_field p _ s g d f (colon s hs) (colon g hg)
      (colon d hd) (colon f hf), resolveNames, OP_READ, OP_WRITE,
      Option.isSome_iff_ne_none.1 hdata, Option.isSome_iff_ne_none.1 hstmt]

/-- C5, in the session of `main`, with an empty field name among the words. -/
theorem C5_Parse_single_command_witness :
    Parse mainSession ("WRITE " ++ "kotor" ++ ":" ++ "label" ++ " " ++ "kotstmt" ++ ":" ++ "") =
      .ok [{ action := OP_WRITE, src := "kotor", srcfield := "label",
             dst := "kotstmt", dstfield := "" }] ∧
    Parse mainSession ("READ " ++ "kotstmt" ++ ":" ++ "" ++ " " ++ "kotor" ++ ":" ++ "label") =
      .ok [{ action := OP_READ, src := "kotstmt", srcfield := "",
             dst := "kotor", dstfield := "label" }] :=
  C5_Parse_single_command mainSession "kotor" "label" "kotstmt" ""
    (by decide) (by decide) (by decide) (by decide) rfl rfl


/-- C6: registering a name that is already a key of the target table fails with the
already-declared error of that table and returns the session as it was: the statement
table and the data table after the call are those before it. -/
theorem C6_duplicate_registration {Ty : Type} (p : protocas Ty) (name value : String)
    (typ : Ty) :
    ((p.statements name).isSome →
      AddStatement p name value =
        (some (Failure.err ("statement named:" ++ name ++ " already declared")), p) ∧
      (AddStatement p name value).2.statements = p.statements ∧
      (AddStatement p name value).2.data = p.data) ∧
    ((p.data name).isSome →
      AddDataType p name typ =
        (some (Failure.err ("data name:" ++ name ++ " already declared")), p) ∧
      (AddDataType p name typ).2.statements = p.statements ∧
      (AddDataType p name typ).2.data = p.data) := by
  constructor
  · intro h
    simp [AddStatement, h]
  · intro h
    simp [AddDataType, h]

/-- C6, in the session of `main`: a second `kotstmt` and a second `kotor` are refused and
the first values stay. -/
theorem C6_duplicate_registration_witness :
    (AddStatement mainSession "kotstmt" "other" =
        (some (Failure.err "statement named:kotstmt already declared"), mainSession) ∧
      (AddStatement mainSession "kotstmt" "other").2.statements = mainSession.statements ∧
      (AddStatement mainSession "kotstmt" "other").2.data = mainSession.data) ∧
    (AddDataType mainSession "kotor" "pb.DataBar" =
        (some (Failure.err "data name:kotor already declared"), mainSession) ∧
      (AddDataType mainSession "kotor" "pb.DataBar").2.statements = mainSession.statements ∧
      (AddDataType mainSession "kotor" "pb.DataBar").2.data = mainSession.data) :=
  ⟨(C6_duplicate_registration mainSession "kotstmt" "other" "pb.DataBar").1 rfl,
   (C6_duplicate_registration mainSession "kotor" "other" "pb.DataBar").2 rfl⟩

/-- C7: registering a name that is not yet a key of the target table succeeds and inserts
exactly that entry: the table maps the name to the new value, every other entry of it is
unchanged, and the other table is unchanged.  Only the target table is consulted, so a
name of one table can be registered in the other. -/
theorem C7_fresh_registration {Ty : Type} (p : protocas Ty) (name value : String)
    (typ : Ty) :
    (p.statements name = none →
      (AddStatement p name value).1 = none ∧
      (AddStatement p name value).2.statements name = some value ∧
      (∀ n, n ≠ name → (AddStatement p name value).2.statements n = p.statements n) ∧
      (AddStatement p name value).2.data = p.data) ∧
    (p.data name = none →
      (AddDataType p name typ).1 = none ∧
      (AddDataType p name typ).2.data name = some typ ∧
      (∀ n, n ≠ name → (AddDataType p name typ).2.data n = p.data n) ∧
      (AddDataType p name typ).2.statements = p.statements) := by
  constructor
  · intro h
    simp only [AddStatement, h, Option.isSome_none, Bool.false_eq_true, if_false,
      Function.update_same, true_and, and_true]
    intro n hn
    rw [Function.update_noteq hn]
  · intro h
    simp only [AddDataType, h, Option.isSome_none, Bool.false_eq_true, if_false,
      Function.update_same, true_and, and_true]
    intro n hn
    rw [Function.update_noteq hn]

/-- C7, in the session of `main`: the data name `kotor` is registered as a statement (the
statement `kotstmt` stays), and the statement name `kotstmt` is registered as a data name
(the data name `kotor` stays). -/
theorem C7_fresh_registration_witness :
    ((AddStatement mainSession "kotor" "v").1 = none ∧
      (AddStatement mainSession "kotor" "v").2.statements "kotor" = some "v" ∧
      (AddStatement mainSession "kotor" "v").2.statements "kotstmt"
        = mainSession.statements "kotstmt" ∧
      (AddStatement mainSession "kotor" "v").2.data = mainSession.data) ∧
    ((AddDataType mainSession "kotstmt" "pb.DataBar").1 = none ∧
      (AddDataType mainSession "kotstmt" "pb.DataBar").2.data "kotstmt" = some "pb.DataBar" ∧
      (AddDataType mainSession "kotstmt" "pb.DataBar").2.data "kotor"
        = mainSession.data "kotor" ∧
      (AddDataType mainSession "kotstmt" "pb.DataBar").2.statements = mainSession.statements) :=
  have hs := (C7_fresh_registration mainSession "kotor" "v" "pb.DataBar").1 rfl
  have hd := (C7_fresh_registration mainSession "kotstmt" "v" "pb.DataBar").2 rfl
  ⟨⟨hs.1, hs.2.1, hs.2.2.1 "kotstmt" (by decide), hs.2.2.2⟩,
   ⟨hd.1, hd.2.1, hd.2.2.1 "kotor" (by decide), hd.2.2.2⟩⟩

/-- C8: a command of at least two tokens whose first token `t` is neither `READ` nor
`WRITE` fails with the error `unknown command:t`, whatever the other tokens and the
tables are. -/
theorem C8_unknown_command {Ty : Type} (p : protocas Ty) (cmd t : String)
    (hlen : 2 ≤ (trimspaceslice (Split cmd ' ')).length)
    (hfirst : (trimspaceslice (Split cmd ' ')).head? = some t)
    (hread : t ≠ "READ") (hwrite : t ≠ "WRITE") :
    parsecmd p cmd = .error (Failure.err ("unknown command:" ++ t)) := by
  rcases hparts : trimspaceslice (Split cmd ' ') with _ | ⟨t0, _ | ⟨u, us⟩⟩
  · rw [hparts] at hlen; simp at hlen
  · rw [hparts] at hlen; simp at hlen
  · rw [hparts] at hfirst
    simp only [List.head?_cons, Option.some.injEq] at hfirst
    subst hfirst
    rw [parsecmd_tokens p cmd _ _ _ hparts, if_neg hread, if_neg hwrite]

/-- C8, at the commands `FOO a:f b:f` and `DECSTMT a:b` in the session of `main`. -/
theorem C8_unknown_command_witness :
    parsecmd mainSession "FOO a:f b:f" = .error (Failure.err ("unknown command:" ++ "FOO")) ∧
    parsecmd mainSession "DECSTMT a:b" =
      .error (Failure.err ("unknown command:" ++ "DECSTMT")) :=
  ⟨C8_unknown_command mainSession "FOO a:f b:f" "FOO" (by decide) rfl (by decide) (by decide),
   C8_unknown_command mainSession "DECSTMT a:b" "DECSTMT" (by decide) rfl (by decide)
     (by decide)⟩


/-- C9, as stated, fails: the two-token command `FOO a:f`, whose keyword is neither `READ`
nor `WRITE`, fails in the empty session with `unknown command:FOO`, which is not a
malformed-command error; so not every such command gets a malformed-command error. -/
theorem C9_counterexample :
    trimspaceslice (Split "FOO a:f" ' ') = ["FOO", "a:f"] ∧
    parsecmd (newProtocas Unit) "FOO a:f" = .error (Failure.err "unknown command:FOO") ∧
    isMalformedCommand (Failure.err "unknown command:FOO") = false ∧
    ¬ (∀ (p : protocas Unit) (cmd t u : String),
        trimspaceslice (Split cmd ' ') = [t, u] → t ≠ "READ" → t ≠ "WRITE" →
        ∃ e, parsecmd p cmd = .error e ∧ isMalformedCommand e = true) := by
  refine ⟨rfl, rfl, rfl, ?_⟩
  intro h
  obtain ⟨e, he, hm⟩ := h (newProtocas Unit) "FOO a:f" "FOO" "a:f" rfl (by decide) (by decide)
  have he2 : parsecmd (newProtocas Unit) "FOO a:f"
      = .error (Failure.err "unknown command:FOO") := rfl
  rw [he2] at he
  cases he
  revert hm
  decide

/-- C9, amended: a command of exactly two tokens whose keyword `t` is neither `READ` nor
`WRITE` fails with the error `unknown command:t`, which is not a malformed-command
error. -/
theorem C9_two_tokens_unknown_command {Ty : Type} (p : protocas Ty) (cmd t u : String)
    (h : trimspaceslice (Split cmd ' ') = [t, u]) (hread : t ≠ "READ")
    (hwrite : t ≠ "WRITE") :
    parsecmd p cmd = .error (Failure.err ("unknown command:" ++ t)) ∧
    isMalformedCommand (Failure.err ("unknown command:" ++ t)) = false := by
  constructor
  · rw [parsecmd_tokens p cmd _ _ _ h, if_neg hread, if_neg hwrite]
  · have hd : ("unknown command:" ++ t).data = 'u' :: ("nknown command:" ++ t).data := by
      simp [String.data_append]
    have hm : "malformed command".data = 'm' :: "alformed command".data := rfl
    simp only [isMalformedCommand, hd, hm, List.isPrefixOf]
    simp

/-- C9 amended, at the commands `FOO a:f` and `DECSTMT a:b` in the session of `main`. -/
theorem C9_two_tokens_unknown_command_witness :
    (parsecmd mainSession "FOO a:f" = .error (Failure.err ("unknown command:" ++ "FOO")) ∧
      isMalformedCommand (Failure.err ("unknown command:" ++ "FOO")) = false) ∧
    (parsecmd mainSession "DECSTMT a:b" =
        .error (Failure.err ("unknown command:" ++ "DECSTMT")) ∧
      isMalformedCommand (Failure.err ("unknown command:" ++ "DECSTMT")) = false) :=
  ⟨C9_two_tokens_unknown_command mainSession "FOO a:f" "FOO" "a:f" rfl (by decide) (by decide),
   C9_two_tokens_unknown_command mainSession "DECSTMT a:b" "DECSTMT" "a:b" rfl (by decide)
     (by decide)⟩

/-- C10: a command whose first token is `READ` (respectively `WRITE`) and whose number of
tokens is at least two and not three fails with the READ (respectively WRITE) syntax
error, whatever the operands and the tables are. -/
theorem C10_keyword_arity {Ty : Type} (p : protocas Ty) (cmd : String)
    (hlen2 : 2 ≤ (trimspaceslice (Split cmd ' ')).length)
    (hlen3 : (trimspaceslice (Split cmd ' ')).length ≠ 3) :
    ((trimspaceslice (Split cmd ' ')).head? = some "READ" →
      parsecmd p cmd =
        .error (Failure.err "malformed command. syntax: READ src:field dst:field")) ∧
    ((trimspaceslice (Split cmd ' ')).head? = some "WRITE" →
      parsecmd p cmd =
        .error (Failure.err "malformed command. syntax: WRITE src:field dst:field")) := by
  rcases hparts : trimspaceslice (Split cmd ' ') with _ | ⟨t0, _ | ⟨u, us⟩⟩
  · rw [hparts] at hlen2; simp at hlen2
  · rw [hparts] at hlen2; simp at hlen2
  · rw [hparts] at hlen3
    have hus : ∀ v, us ≠ [v] := by
      intro v hv
      apply hlen3
      simp [hv]
    constructor
    · intro hfirst
      simp only [List.head?_cons, Option.some.injEq] at hfirst
      subst hfirst
      rw [parsecmd_tokens p cmd _ _ _ hparts, if_pos rfl]
      split
      · exact absurd rfl (hus _)
      · rfl
    · intro hfirst
      simp only [List.head?_cons, Option.some.injEq] at hfirst
      subst hfirst
      rw [parsecmd_tokens p cmd _ _ _ hparts, if_neg (by decide), if_pos rfl]
      split
      · exact absurd rfl (hus _)
      · rfl

/-- C10, at READ and WRITE commands of two and of four tokens in the session of `main`. -/
theorem C10_keyword_arity_witness :
    parsecmd mainSession "READ a:f" =
      .error (Failure.err "malformed command. syntax: READ src:field dst:field") ∧
    parsecmd mainSession "READ a:f b:f c:f" =
      .error (Failure.err "malformed command. syntax: READ src:field dst:field") ∧
    parsecmd mainSession "WRITE kotor:f" =
      .error (Failure.err "malformed command. syntax: WRITE src:field dst:field") ∧
    parsecmd mainSession "WRITE kotor:f  kotstmt:g" =
      .error (Failure.err "malformed command. syntax: WRITE src:field dst:field") :=
  ⟨(C10_keyword_arity mainSession "READ a:f" (by decide) (by decide)).1 rfl,
   (C10_keyword_arity mainSession "READ a:f b:f c:f" (by decide) (by decide)).1 rfl,
   (C10_keyword_arity mainSession "WRITE kotor:f" (by decide) (by decide)).2 rfl,
   (C10_keyword_arity mainSession "WRITE kotor:f  kotstmt:g" (by decide) (by decide)).2 rfl⟩

/-! ## Further lemmas on splitting and trimming -/

theorem splitChars_append_sep_all (sep : Char) (a b : List Char) :
    splitChars sep (a ++ sep :: b) = splitChars sep a ++ splitChars sep b := by
  induction a with
  | nil => simp [splitChars]
  | cons c cs ih =>
    by_cases hc : c = sep
    · simp [splitChars, hc, ih]
    · rw [List.cons_append, splitChars_cons_ne sep c _ hc, splitChars_cons_ne sep c _ hc, ih]
      have hne := splitChars_ne_nil sep cs
      cases hs : splitChars sep cs with
      | nil => exact absurd hs hne
      | cons w ws => simp

theorem length_splitChars (sep : Char) (l : List Char) :
    (splitChars sep l).length = l.count sep + 1 := by
  induction l with
  | nil => rfl
  | cons c cs ih =>
    by_cases hc : c = sep
    · subst hc
      simp [splitChars, ih]
    · rw [splitChars_cons_ne sep c _ hc]
      have hne := splitChars_ne_nil sep cs
      have hcount : (c :: cs).count sep = cs.count sep := by
        simp [List.count_cons, hc]
      rw [hcount, ← ih]
      cases hs : splitChars sep cs with
      | nil => exact absurd hs hne
      | cons w ws => simp

theorem mem_splitChars (sep : Char) (l w : List Char) (hw : w ∈ splitChars sep l) :
    sep ∉ w ∧ ∀ c ∈ w, c ∈ l := by
  induction l generalizing w with
  | nil =>
    simp only [splitChars, List.mem_singleton] at hw
    subst hw
    simp
  | cons c cs ih =>
    by_cases hc : c = sep
    · simp only [splitChars, hc, if_true, List.mem_cons] at hw
      rcases hw with rfl | hw
      · simp
      · obtain ⟨h1, h2⟩ := ih w hw
        exact ⟨h1, fun x hx => List.mem_cons_of_mem _ (h2 x hx)⟩
    · rw [splitChars_cons_ne sep c _ hc] at hw
      have hne := splitChars_ne_nil sep cs
      cases hs : splitChars sep cs with
      | nil => exact absurd hs hne
      | cons v vs =>
        rw [hs] at hw ih
        simp only [List.headD_cons, List.tail_cons, List.mem_cons] at hw
        rcases hw with rfl | hw
        · obtain ⟨h1, h2⟩ := ih v (by simp)
          constructor
          · intro hm
            rcases List.mem_cons.1 hm with h | h
            · exact hc h.symm
            · exact h1 h
          · intro x hx
            rcases List.mem_cons.1 hx with h | h
            · simp [h]
            · exact List.mem_cons_of_mem _ (h2 x h)
        · obtain ⟨h1, h2⟩ := ih w (by simp [hw])
          exact ⟨h1, fun x hx => List.mem_cons_of_mem _ (h2 x hx)⟩

theorem splitChars_eq_singleton (sep : Char) (l b : List Char)
    (h : splitChars sep l = [b]) : l = b := by
  have hlen := length_splitChars sep l
  rw [h] at hlen
  have hnot : sep ∉ l := by
    intro hm
    have := List.count_pos_iff.2 hm
    simp at hlen
    omega
  rw [splitChars_of_not_mem sep l hnot] at h
  simpa using h

theorem splitChars_eq_pair (sep : Char) (l a b : List Char)
    (h : splitChars sep l = [a, b]) : l = a ++ sep :: b := by
  induction l generalizing a with
  | nil => simp [splitChars] at h
  | cons c cs ih =>
    by_cases hc : c = sep
    · simp only [splitChars, hc, if_true, List.cons.injEq] at h
      obtain ⟨ha, hb⟩ := h
      subst ha
      rw [splitChars_eq_singleton sep cs b hb, hc]
      rfl
    · rw [splitChars_cons_ne sep c _ hc] at h
      have hne := splitChars_ne_nil sep cs
      cases hs : splitChars sep cs with
      | nil => exact absurd hs hne
      | cons v vs =>
        rw [hs] at h
        simp only [List.headD_cons, List.tail_cons, List.cons.injEq] at h
        obtain ⟨ha, hb⟩ := h
        subst ha
        subst hb
        rw [ih v hs]
        rfl

theorem length_Split (s : String) (sep : Char) :
    (Split s sep).length = s.data.count sep + 1 := by
  simp [Split, length_splitChars]

theorem splitcolon_eq (t : String) :
    splitcolon t =
      if t.data.count ':' = 1 then .ok (Split t ':')
      else .error (Failure.err "args to operations are name:field") := by
  unfold splitcolon
  simp only [length_Split]
  by_cases h : t.data.count ':' = 1
  · simp [h]
  · have h2 : t.data.count ':' + 1 ≠ 2 := by omega
    simp [h, h2]

theorem Split_pair_of_count (t : String) (h : t.data.count ':' = 1) :
    ∃ name field, Split t ':' = [name, field] ∧ name ++ ":" ++ field = t ∧
      ':' ∉ name.data ∧ ':' ∉ field.data := by
  have hlen := length_splitChars ':' t.data
  rw [h] at hlen
  rcases hs : splitChars ':' t.data with _ | ⟨a, _ | ⟨b, _ | ⟨c, cs⟩⟩⟩
  · rw [hs] at hlen; simp at hlen
  · rw [hs] at hlen; simp at hlen
  · refine ⟨String.mk a, String.mk b, by simp [Split, hs], ?_, ?_, ?_⟩
    · apply String.ext
      rw [data_name_field]
      exact (splitChars_eq_pair ':' t.data a b hs).symm
    · exact (mem_splitChars ':' t.data a (by simp [hs])).1
    · exact (mem_splitChars ':' t.data b (by simp [hs])).1
  · rw [hs] at hlen; simp at hlen

/-- C11: `splitcolon t` succeeds exactly when `t` has exactly one `:`; a success returns
the two parts `[name, field]` with `name ++ ":" ++ field = t` and no `:` in either part; a
token with no colon or with two or more colons fails with the error
`args to operations are name:field`. -/
theorem C11_splitcolon (t : String) :
    ((∃ parts, splitcolon t = .ok parts) ↔ t.data.count ':' = 1) ∧
    (∀ parts, splitcolon t = .ok parts →
      ∃ name field, parts = [name, field] ∧ name ++ ":" ++ field = t ∧
        ':' ∉ name.data ∧ ':' ∉ field.data) ∧
    (t.data.count ':' ≠ 1 →
      splitcolon t = .error (Failure.err "args to operations are name:field")) := by
  refine ⟨⟨?_, ?_⟩, ?_, ?_⟩
  · rintro ⟨parts, hp⟩
    rw [splitcolon_eq] at hp
    by_contra hne
    rw [if_neg hne] at hp
    cases hp
  · intro h
    exact ⟨Split t ':', by rw [splitcolon_eq, if_pos h]⟩
  · intro parts hp
    rw [splitcolon_eq] at hp
    by_cases h : t.data.count ':' = 1
    · rw [if_pos h] at hp
      cases hp
      exact Split_pair_of_count t h
    · rw [if_neg h] at hp
      cases hp
  · intro h
    rw [splitcolon_eq, if_neg h]

/-- C11, at the tokens `kotor:field` (one colon), `kotor` (none) and `a:b:c` (two). -/
theorem C11_splitcolon_witness :
    (∃ name field, ["kotor", "field"] = [name, field] ∧ name ++ ":" ++ field = "kotor:field" ∧
        ':' ∉ name.data ∧ ':' ∉ field.data) ∧
    splitcolon "kotor" = .error (Failure.err "args to operations are name:field") ∧
    splitcolon "a:b:c" = .error (Failure.err "args to operations are name:field") :=
  ⟨(C11_splitcolon "kotor:field").2.1 ["kotor", "field"] rfl,
   (C11_splitcolon "kotor").2.2 (by decide),
   (C11_splitcolon "a:b:c").2.2 (by decide)⟩

/-! ## The commands that parse -/

theorem parsecolons_ok_inv_strong {Ty : Type} (p : protocas Ty) (op0 op : operation)
    (src dst : String) (h : parsecolons p op0 src dst = .ok op) :
    op.action = op0.action ∧ src = op.src ++ ":" ++ op.srcfield ∧
      dst = op.dst ++ ":" ++ op.dstfield ∧
      ':' ∉ op.src.data ∧ ':' ∉ op.srcfield.data ∧ ':' ∉ op.dst.data ∧
      ':' ∉ op.dstfield.data ∧ resolveNames p op = none := by
  by_cases hs : src.data.count ':' = 1
  · by_cases hd : dst.data.count ':' = 1
    · obtain ⟨a, f, _, hsrc, ha, hf⟩ := Split_pair_of_count src hs
      obtain ⟨b, g, _, hdst, hb, hg⟩ := Split_pair_of_count dst hd
      subst hsrc
      subst hdst
      rw [parsecolons_name_field p op0 a f b g ha hf hb hg] at h
      split at h
      · cases h
      · rename_i hr
        simp only [Except.ok.injEq] at h
        subst h
        exact ⟨rfl, rfl, rfl, ha, hf, hb, hg, hr⟩
    · simp [parsecolons, splitcolon_eq, hs, hd] at h
  · simp [parsecolons, splitcolon_eq, hs] at h

theorem parsecmd_short {Ty : Type} (p : protocas Ty) (cmd t : String)
    (h : trimspaceslice (Split cmd ' ') = [t]) :
    parsecmd p cmd =
      .error (Failure.err ("malformed command:" ++ t ++ " with less than two parts")) := by
  unfold parsecmd
  simp [h, index]

theorem tokens_ne_nil (cmd : String) (sep : Char) : trimspaceslice (Split cmd sep) ≠ [] := by
  simp [trimspaceslice, Split, splitChars_ne_nil]

theorem parsecmd_ok_inv_strong {Ty : Type} (p : protocas Ty) (cmd : String) (op : operation)
    (h : parsecmd p cmd = .ok op) :
    ∃ k, ((k = "READ" ∧ op.action = OP_READ) ∨ (k = "WRITE" ∧ op.action = OP_WRITE)) ∧
      trimspaceslice (Split cmd ' ')
        = [k, op.src ++ ":" ++ op.srcfield, op.dst ++ ":" ++ op.dstfield] ∧
      ':' ∉ op.src.data ∧ ':' ∉ op.srcfield.data ∧ ':' ∉ op.dst.data ∧
      ':' ∉ op.dstfield.data ∧ resolveNames p op = none := by
  rcases hparts : trimspaceslice (Split cmd ' ') with _ | ⟨t, _ | ⟨u, us⟩⟩
  · exact absurd hparts (tokens_ne_nil cmd ' ')
  · rw [parsecmd_short p cmd t hparts] at h
    cases h
  · rw [parsecmd_tokens p cmd t u us hparts] at h
    by_cases hr : t = "READ"
    · rw [if_pos hr] at h
      rcases us with _ | ⟨v, _ | ⟨w, ws⟩⟩
      · cases h
      · obtain ⟨ha, h1, h2, rest⟩ := parsecolons_ok_inv_strong p _ op u v h
        exact ⟨t, Or.inl ⟨hr, ha⟩, by rw [← h1, ← h2], rest⟩
      · cases h
    · rw [if_neg hr] at h
      by_cases hw : t = "WRITE"
      · rw [if_pos hw] at h
        rcases us with _ | ⟨v, _ | ⟨w, ws⟩⟩
        · cases h
        · obtain ⟨ha, h1, h2, rest⟩ := parsecolons_ok_inv_strong p _ op u v h
          exact ⟨t, Or.inr ⟨hw, ha⟩, by rw [← h1, ← h2], rest⟩
        · cases h
      · rw [if_neg hw] at h
        cases h

theorem parsecmd_of_tokens {Ty : Type} (p : protocas Ty) (cmd k : String) (op : operation)
    (hk : (k = "READ" ∧ op.action = OP_READ) ∨ (k = "WRITE" ∧ op.action = OP_WRITE))
    (htok : trimspaceslice (Split cmd ' ')
      = [k, op.src ++ ":" ++ op.srcfield, op.dst ++ ":" ++ op.dstfield])
    (h1 : ':' ∉ op.src.data) (h2 : ':' ∉ op.srcfield.data) (h3 : ':' ∉ op.dst.data)
    (h4 : ':' ∉ op.dstfield.data) (hres : resolveNames p op = none) :
    parsecmd p cmd = .ok op := by
  rw [parsecmd_tokens p cmd _ _ _ htok]
  obtain ⟨a, s, f, d, g⟩ := op
  simp only at hk htok h1 h2 h3 h4
  rcases hk with ⟨rfl, rfl⟩ | ⟨rfl, rfl⟩
  · rw [if_pos rfl]
    simp only [parseread, parsecolons_name_field p _ s f d g h1 h2 h3 h4]
    rw [hres]
  · rw [if_neg (by decide), if_pos rfl]
    simp only [parsewrite, parsecolons_name_field p _ s f d g h1 h2 h3 h4]
    rw [hres]

/-! ## Lemmas on trimming -/

theorem mem_of_mem_trimChars (l : List Char) (c : Char) (h : c ∈ trimChars l) : c ∈ l := by
  unfold trimChars at h
  have h1 := (List.rdropWhile_prefix isSpace _).subset h
  exact (List.dropWhile_suffix isSpace).subset h1

theorem trimChars_head_not_space (l : List Char) :
    ∀ c ∈ (trimChars l).head?, isSpace c = false := by
  intro c hc
  unfold trimChars at hc
  have hx := List.head?_dropWhile_not isSpace l
  obtain ⟨t, ht⟩ := List.rdropWhile_prefix isSpace (l := l.dropWhile isSpace)
  cases hr : (l.dropWhile isSpace).rdropWhile isSpace with
  | nil => rw [hr] at hc; simp at hc
  | cons y ys =>
    rw [hr] at hc ht
    simp only [List.head?_cons, Option.mem_def, Option.some.injEq] at hc
    subst hc
    rw [← ht] at hx
    simpa using hx

theorem trimChars_last_not_space (l : List Char) :
    ∀ c ∈ (trimChars l).getLast?, isSpace c = false := by
  intro c hc
  unfold trimChars at hc
  by_cases hne : (l.dropWhile isSpace).rdropWhile isSpace = []
  · rw [hne] at hc; simp at hc
  · have h := List.rdropWhile_last_not isSpace (l.dropWhile isSpace) hne
    rw [List.getLast?_eq_getLast _ hne] at hc
    simp only [Option.mem_def, Option.some.injEq] at hc
    subst hc
    simpa using h

theorem trimChars_idempotent (l : List Char) : trimChars (trimChars l) = trimChars l :=
  trimChars_eq_self _ (trimChars_head_not_space l) (trimChars_last_not_space l)

theorem TrimSpace_idempotent (s : String) : TrimSpace (TrimSpace s) = TrimSpace s := by
  unfold TrimSpace
  rw [trimChars_idempotent]

theorem trimChars_all_space (l : List Char) (h : ∀ c ∈ l, isSpace c = true) :
    trimChars l = [] := by
  unfold trimChars
  rw [List.dropWhile_eq_nil_iff.2 h]
  rfl

theorem trimChars_pad_left (w l : List Char) (hw : ∀ c ∈ w, isSpace c = true) :
    trimChars (w ++ l) = trimChars l := by
  unfold trimChars
  rw [List.dropWhile_append_of_pos hw]

theorem rdropWhile_append_space (d w : List Char) (hw : ∀ c ∈ w, isSpace c = true) :
    (d ++ w).rdropWhile isSpace = d.rdropWhile isSpace := by
  unfold List.rdropWhile
  rw [List.reverse_append, List.dropWhile_append_of_pos (fun a ha => hw a (List.mem_reverse.1 ha))]

theorem trimChars_pad_right (l w : List Char) (hw : ∀ c ∈ w, isSpace c = true) :
    trimChars (l ++ w) = trimChars l := by
  unfold trimChars
  rw [List.dropWhile_append]
  by_cases he : (l.dropWhile isSpace).isEmpty = true
  · rw [if_pos he, List.dropWhile_eq_nil_iff.2 hw]
    rw [List.isEmpty_iff] at he
    rw [he]
  · rw [if_neg he, rdropWhile_append_space _ _ hw]

theorem Split_of_not_mem (s : String) (sep : Char) (h : sep ∉ s.data) : Split s sep = [s] := by
  unfold Split
  rw [splitChars_of_not_mem _ _ h]
  rfl

theorem Parse_of_commands {Ty : Type} (p : protocas Ty) (script : String) :
    Parse p script = Parse.loop p (trimspaceslice (Split script ';')) [] := rfl

/-- C12, as stated, fails: in the session of `main` the script `WRITE kotor:label kotstmt:`
parses, and the destination field of its operation is the empty string. -/
theorem C12_counterexample :
    Parse mainSession "WRITE kotor:label kotstmt:" =
      .ok [{ action := OP_WRITE, src := "kotor", srcfield := "label",
             dst := "kotstmt", dstfield := "" }] ∧
    ¬ (∀ (p : protocas String) (script : String) (ops : List operation),
        Parse p script = .ok ops → ∀ op ∈ ops, op.srcfield ≠ "" ∧ op.dstfield ≠ "") := by
  refine ⟨rfl, ?_⟩
  intro h
  have h2 := h mainSession "WRITE kotor:label kotstmt:" _ rfl
    ⟨OP_WRITE, "kotor", "label", "kotstmt", ""⟩ (by decide)
  exact h2.2 rfl

theorem count_name_field (a f : String) (ha : ':' ∉ a.data) (hf : ':' ∉ f.data) :
    (a ++ ":" ++ f).data.count ':' = 1 := by
  rw [data_name_field, List.count_append, List.count_cons_self, List.count_eq_zero.2 ha,
    List.count_eq_zero.2 hf]

/-- C12, amended: the operations of a successful `Parse` correspond one to one, in order,
to the commands of the script, and for each operation and its own command: the command
has three tokens, its source operand and its destination operand each have exactly one
`:`, the source name and the source field are the parts before and after the `:` of the
source operand, the destination name and the destination field those of the destination
operand, and none of the four contains a `:` (a field may be empty). -/
theorem C12_fields_after_colon {Ty : Type} (p : protocas Ty) (script : String)
    (ops : List operation) (h : Parse p script = .ok ops) :
    List.Forall₂
      (fun c op => ∃ k t1 t2,
        trimspaceslice (Split c ' ') = [k, t1, t2] ∧
        t1.data.count ':' = 1 ∧ t2.data.count ':' = 1 ∧
        t1 = op.src ++ ":" ++ op.srcfield ∧ t2 = op.dst ++ ":" ++ op.dstfield ∧
        ':' ∉ op.src.data ∧ ':' ∉ op.srcfield.data ∧
        ':' ∉ op.dst.data ∧ ':' ∉ op.dstfield.data)
      (trimspaceslice (Split script ';')) ops := by
  obtain ⟨os, hos, rfl⟩ := Parse.loop_ok_inv p _ [] ops h
  refine hos.imp ?_
  intro c op hc
  obtain ⟨k, _, htok, h1, h2, h3, h4, _⟩ := parsecmd_ok_inv_strong p c op hc
  exact ⟨k, _, _, htok, count_name_field _ _ h1 h2, count_name_field _ _ h3 h4, rfl, rfl,
    h1, h2, h3, h4⟩

/-- C12 amended, at a script with an empty destination field in the session of `main`:
its one command and its one operation. -/
theorem C12_fields_after_colon_witness :
    ∃ k t1 t2,
      trimspaceslice (Split "WRITE kotor:label kotstmt:" ' ') = [k, t1, t2] ∧
      t1.data.count ':' = 1 ∧ t2.data.count ':' = 1 ∧
      t1 = "kotor" ++ ":" ++ "label" ∧ t2 = "kotstmt" ++ ":" ++ "" ∧
      ':' ∉ "kotor".data ∧ ':' ∉ "label".data ∧ ':' ∉ "kotstmt".data ∧ ':' ∉ "".data :=
  (List.forall₂_cons.1
    (C12_fields_after_colon mainSession "WRITE kotor:label kotstmt:"
      [⟨OP_WRITE, "kotor", "label", "kotstmt", ""⟩] rfl :
      List.Forall₂ _ ["WRITE kotor:label kotstmt:"]
        [(⟨OP_WRITE, "kotor", "label", "kotstmt", ""⟩ : operation)])).1

/-- C13: a command that, once trimmed, has no space character is a single token, and its
parse fails with `malformed command:<token> with less than two parts`, whatever the token
is (a bare `READ`, a bare `WRITE`, another word, the empty command); a script without `;`
that is such a command fails with that error. -/
theorem C13_single_token {Ty : Type} (p : protocas Ty) (raw : String)
    (h : ' ' ∉ (TrimSpace raw).data) :
    parsecmd p (TrimSpace raw) =
      .error (Failure.err
        ("malformed command:" ++ TrimSpace raw ++ " with less than two parts")) ∧
    (';' ∉ raw.data →
      Parse p raw =
        .error (Failure.err
          ("malformed command:" ++ TrimSpace raw ++ " with less than two parts"))) := by
  have htok : trimspaceslice (Split (TrimSpace raw) ' ') = [TrimSpace raw] := by
    rw [Split_of_not_mem _ _ h]
    simp [trimspaceslice, TrimSpace_idempotent]
  have hcmd := parsecmd_short p (TrimSpace raw) (TrimSpace raw) htok
  refine ⟨hcmd, fun hsemi => ?_⟩
  rw [Parse_of_commands, Split_of_not_mem _ _ hsemi]
  simp only [trimspaceslice, List.map, Parse.loop, hcmd]

/-- C13, at a bare `READ`, a bare `WRITE`, the unknown word `FOO` and the empty command. -/
theorem C13_single_token_witness :
    (parsecmd mainSession (TrimSpace " READ\t") =
        .error (Failure.err
          ("malformed command:" ++ TrimSpace " READ\t" ++ " with less than two parts")) ∧
      Parse mainSession "WRITE" =
        .error (Failure.err
          ("malformed command:" ++ TrimSpace "WRITE" ++ " with less than two parts"))) ∧
    Parse mainSession "FOO" =
      .error (Failure.err
        ("malformed command:" ++ TrimSpace "FOO" ++ " with less than two parts")) ∧
    Parse mainSession "" =
      .error (Failure.err ("malformed command:" ++ TrimSpace "" ++ " with less than two parts")) :=
  ⟨⟨(C13_single_token mainSession " READ\t" (by decide)).1,
    (C13_single_token mainSession "WRITE" (by decide)).2 (by decide)⟩,
   (C13_single_token mainSession "FOO" (by decide)).2 (by decide),
   (C13_single_token mainSession "" (by decide)).2 (by decide)⟩


theorem not_space_of_ne (w : List Char) (hw : ∀ c ∈ w, isSpace c = true) (x : Char)
    (hx : isSpace x = false) : x ∉ w := by
  intro hm
  rw [hw x hm] at hx
  cases hx

theorem commands_trailing_separator (body ws : String) (hws : ∀ c ∈ ws.data, isSpace c = true) :
    trimspaceslice (Split (body ++ ";" ++ ws) ';')
      = trimspaceslice (Split body ';') ++ [""] := by
  have hd : (body ++ ";" ++ ws).data = body.data ++ ';' :: ws.data := by
    simp [String.data_append]
  have hsemi : ';' ∉ ws.data := not_space_of_ne _ hws ';' (by decide)
  unfold Split
  rw [hd, splitChars_append_sep_all, splitChars_of_not_mem _ _ hsemi]
  simp only [trimspaceslice, List.map_append, List.map, TrimSpace]
  rw [trimChars_all_space _ hws]

theorem parsecmd_empty {Ty : Type} (p : protocas Ty) :
    parsecmd p "" = .error (Failure.err "malformed command: with less than two parts") :=
  parsecmd_short p "" "" rfl

/-- C14: a script that ends with `;` followed only by white space has the empty command
as its last command (it is not skipped), so `Parse` fails; when every command before that
last separator parses, the error is `malformed command: with less than two parts`. -/
theorem C14_trailing_separator {Ty : Type} (p : protocas Ty) (body ws : String)
    (hws : ∀ c ∈ ws.data, isSpace c = true) :
    trimspaceslice (Split (body ++ ";" ++ ws) ';')
      = trimspaceslice (Split body ';') ++ [""] ∧
    (∃ e, Parse p (body ++ ";" ++ ws) = .error e) ∧
    ((∀ c ∈ trimspaceslice (Split body ';'), ∃ o, parsecmd p c = .ok o) →
      Parse p (body ++ ";" ++ ws) =
        .error (Failure.err "malformed command: with less than two parts")) := by
  have hcmds := commands_trailing_separator body ws hws
  refine ⟨hcmds, ?_, ?_⟩
  · obtain ⟨pre, c, post, e, hsplit, hpre, hc⟩ :=
      exists_first_error p (trimspaceslice (Split (body ++ ";" ++ ws) ';'))
        ⟨"", by rw [hcmds]; simp, _, parsecmd_empty p⟩
    refine ⟨e, ?_⟩
    rw [Parse_of_commands, hsplit]
    exact Parse.loop_error p pre c post e hpre hc []
  · intro hall
    rw [Parse_of_commands, hcmds]
    exact Parse.loop_error p _ "" [] _ hall (parsecmd_empty p) []

/-- C14, at the script of `main` followed by `;` and a newline, in the session of `main`. -/
theorem C14_trailing_separator_witness :
    trimspaceslice (Split ("WRITE kotor:field kotstmt:field" ++ ";" ++ " \n") ';')
      = trimspaceslice (Split "WRITE kotor:field kotstmt:field" ';') ++ [""] ∧
    (∃ e, Parse mainSession ("WRITE kotor:field kotstmt:field" ++ ";" ++ " \n") = .error e) ∧
    Parse mainSession ("WRITE kotor:field kotstmt:field" ++ ";" ++ " \n") =
      .error (Failure.err "malformed command: with less than two parts") :=
  have h := C14_trailing_separator mainSession "WRITE kotor:field kotstmt:field" " \n"
    (by decide)
  ⟨h.1, h.2.1, h.2.2 (by
    intro c hc
    have hc2 : c = "WRITE kotor:field kotstmt:field" := List.mem_singleton.1 hc
    subst hc2
    exact ⟨_, rfl⟩)⟩

/-- C15: a three-token READ or WRITE command in which the source operand or the
destination operand does not have exactly one colon fails with the error
`args to operations are name:field`, whatever the tables contain (so also when the source
name is unregistered and only the destination operand is malformed). -/
theorem C15_operand_format {Ty : Type} (p : protocas Ty) (cmd k t1 t2 : String)
    (htok : trimspaceslice (Split cmd ' ') = [k, t1, t2])
    (hk : k = "READ" ∨ k = "WRITE")
    (hbad : t1.data.count ':' ≠ 1 ∨ t2.data.count ':' ≠ 1) :
    parsecmd p cmd = .error (Failure.err "args to operations are name:field") := by
  have hcol : ∀ op0 : operation,
      parsecolons p op0 t1 t2 = .error (Failure.err "args to operations are name:field") := by
    intro op0
    unfold parsecolons
    by_cases h1 : t1.data.count ':' = 1
    · have h2 : t2.data.count ':' ≠ 1 := by
        rcases hbad with h | h
        · exact absurd h1 h
        · exact h
      simp [splitcolon_eq, h1, h2]
    · simp [splitcolon_eq, h1]
  rw [parsecmd_tokens p cmd _ _ _ htok]
  rcases hk with rfl | rfl
  · rw [if_pos rfl]
    exact hcol _
  · rw [if_neg (by decide), if_pos rfl]
    exact hcol _

/-- C15, in the session of `main`: a malformed destination with an unregistered source, a
malformed source, and a WRITE with both operands malformed. -/
theorem C15_operand_format_witness :
    parsecmd mainSession "READ nope:f kotor" =
      .error (Failure.err "args to operations are name:field") ∧
    parsecmd mainSession "READ kotstmt:f:g kotor:f" =
      .error (Failure.err "args to operations are name:field") ∧
    parsecmd mainSession "WRITE kotor kotstmt::" =
      .error (Failure.err "args to operations are name:field") :=
  ⟨C15_operand_format mainSession "READ nope:f kotor" "READ" "nope:f" "kotor" rfl
     (Or.inl rfl) (Or.inr (by decide)),
   C15_operand_format mainSession "READ kotstmt:f:g kotor:f" "READ" "kotstmt:f:g" "kotor:f" rfl
     (Or.inl rfl) (Or.inl (by decide)),
   C15_operand_format mainSession "WRITE kotor kotstmt::" "WRITE" "kotor" "kotstmt::" rfl
     (Or.inr rfl) (Or.inl (by decide))⟩


/-! ## Consecutive spaces -/

theorem splitChars_replicate (sep : Char) (n : Nat) (y : List Char) :
    splitChars sep (List.replicate n sep ++ y)
      = List.replicate n [] ++ splitChars sep y := by
  induction n with
  | zero => simp
  | succ n ih => simp [List.replicate_succ, splitChars, ih]

theorem tokens_gap (x y : String) :
    trimspaceslice (Split (x ++ " " ++ y) ' ')
      = trimspaceslice (Split x ' ') ++ trimspaceslice (Split y ' ') := by
  have hd : (x ++ " " ++ y).data = x.data ++ ' ' :: y.data := by
    simp [String.data_append]
  simp only [Split, trimspaceslice, hd, splitChars_append_sep_all, List.map_append]

theorem tokens_gap_spaces (x y : String) (n : Nat) :
    trimspaceslice (Split (x ++ " " ++ spaces n ++ y) ' ')
      = trimspaceslice (Split x ' ') ++ List.replicate n "" ++ trimspaceslice (Split y ' ') := by
  have hd : (x ++ " " ++ spaces n ++ y).data
      = x.data ++ ' ' :: (List.replicate n ' ' ++ y.data) := by
    simp [String.data_append, spaces]
  have he : TrimSpace (String.mk []) = "" := rfl
  simp only [Split, trimspaceslice, hd, splitChars_append_sep_all, splitChars_replicate,
    List.map_append, List.map_replicate, he, List.append_assoc]

theorem parsecmd_keyword_arity {Ty : Type} (p : protocas Ty) (cmd k : String)
    (hk : k = "READ" ∨ k = "WRITE")
    (hfirst : (trimspaceslice (Split cmd ' ')).head? = some k)
    (hlen : 4 ≤ (trimspaceslice (Split cmd ' ')).length) :
    parsecmd p cmd =
      .error (Failure.err ("malformed command. syntax: " ++ k ++ " src:field dst:field")) := by
  rcases hparts : trimspaceslice (Split cmd ' ') with _ | ⟨t, _ | ⟨u, _ | ⟨v, _ | ⟨w, ws⟩⟩⟩⟩
  · rw [hparts] at hlen; simp at hlen
  · rw [hparts] at hlen; simp at hlen
  · rw [hparts] at hlen; simp at hlen
  · rw [hparts] at hlen; simp at hlen
  · rw [hparts] at hfirst
    simp only [List.head?_cons, Option.some.injEq] at hfirst
    subst hfirst
    rw [parsecmd_tokens p cmd _ _ _ hparts]
    rcases hk with rfl | rfl
    · rw [if_pos rfl]; rfl
    · rw [if_neg (by decide), if_pos rfl]; rfl

/-- C16: consecutive spaces are not collapsed.  When the command `x y` (a space between
`x` and `y`) parses to the operation `op`, the command with `n ≥ 1` more spaces in that
gap has `3 + n` tokens, the additional ones empty, and its parse fails with the syntax
error of the keyword of `op`. -/
theorem C16_consecutive_spaces {Ty : Type} (p : protocas Ty) (x y : String) (op : operation)
    (n : Nat) (hn : 1 ≤ n) (hvalid : parsecmd p (x ++ " " ++ y) = .ok op) :
    (trimspaceslice (Split (x ++ " " ++ spaces n ++ y) ' ')).length = 3 + n ∧
    trimspaceslice (Split (x ++ " " ++ spaces n ++ y) ' ')
      = trimspaceslice (Split x ' ') ++ List.replicate n "" ++ trimspaceslice (Split y ' ') ∧
    (op.action = OP_READ →
      parsecmd p (x ++ " " ++ spaces n ++ y) =
        .error (Failure.err "malformed command. syntax: READ src:field dst:field")) ∧
    (op.action = OP_WRITE →
      parsecmd p (x ++ " " ++ spaces n ++ y) =
        .error (Failure.err "malformed command. syntax: WRITE src:field dst:field")) := by
  obtain ⟨k, hk, htok, _⟩ := parsecmd_ok_inv_strong p _ op hvalid
  rw [tokens_gap] at htok
  have hlen3 : (trimspaceslice (Split x ' ')).length + (trimspaceslice (Split y ' ')).length
      = 3 := by
    have := congrArg List.length htok
    simpa using this
  have hlen : (trimspaceslice (Split (x ++ " " ++ spaces n ++ y) ' ')).length = 3 + n := by
    rw [tokens_gap_spaces]
    simp only [List.length_append, List.length_replicate]
    omega
  have hfirst : (trimspaceslice (Split (x ++ " " ++ spaces n ++ y) ' ')).head? = some k := by
    rw [tokens_gap_spaces]
    have hx := tokens_ne_nil x ' '
    cases hsx : trimspaceslice (Split x ' ') with
    | nil => exact absurd hsx hx
    | cons a as =>
      rw [hsx] at htok
      simp only [List.cons_append, List.cons.injEq] at htok
      simp [htok.1]
  have hk2 : k = "READ" ∨ k = "WRITE" := by
    rcases hk with h | h
    · exact Or.inl h.1
    · exact Or.inr h.1
  have herr := parsecmd_keyword_arity p _ k hk2 hfirst (by rw [hlen]; omega)
  refine ⟨hlen, tokens_gap_spaces x y n, ?_, ?_⟩
  · intro ha
    rcases hk with ⟨rfl, _⟩ | ⟨_, hw⟩
    · exact herr
    · rw [ha] at hw; cases hw
  · intro ha
    rcases hk with ⟨_, hr⟩ | ⟨rfl, _⟩
    · rw [ha] at hr; cases hr
    · exact herr

/-- C16, in the session of `main`: one more space after the keyword of a WRITE, and two
more spaces between the operands of a READ. -/
theorem C16_consecutive_spaces_witness :
    parsecmd mainSession ("WRITE" ++ " " ++ spaces 1 ++ "kotor:f kotstmt:g") =
      .error (Failure.err "malformed command. syntax: WRITE src:field dst:field") ∧
    parsecmd mainSession ("READ kotstmt:g" ++ " " ++ spaces 2 ++ "kotor:f") =
      .error (Failure.err "malformed command. syntax: READ src:field dst:field") :=
  ⟨(C16_consecutive_spaces mainSession "WRITE" "kotor:f kotstmt:g"
      ⟨OP_WRITE, "kotor", "f", "kotstmt", "g"⟩ 1 (by decide) rfl).2.2.2 rfl,
   (C16_consecutive_spaces mainSession "READ kotstmt:g" "kotor:f"
      ⟨OP_READ, "kotstmt", "g", "kotor", "f"⟩ 2 (by decide) rfl).2.2.1 rfl⟩


/-! ## White space around the commands -/

theorem splitChars_pad_left (sep : Char) (l z : List Char) (hl : sep ∉ l) :
    splitChars sep (l ++ z)
      = (l ++ (splitChars sep z).headD []) :: (splitChars sep z).tail := by
  induction l with
  | nil =>
    have hne := splitChars_ne_nil sep z
    cases hs : splitChars sep z with
    | nil => exact absurd hs hne
    | cons w ws => simp [hs]
  | cons c cs ih =>
    have hc : c ≠ sep := fun e => hl (by simp [e])
    have hcs : sep ∉ cs := fun e => hl (by simp [e])
    rw [List.cons_append, splitChars_cons_ne sep c _ hc, ih hcs]
    simp

theorem splitChars_pad_right (sep : Char) (c r : List Char) (hr : sep ∉ r) :
    ∃ init last, splitChars sep c = init ++ [last] ∧
      splitChars sep (c ++ r) = init ++ [last ++ r] := by
  induction c with
  | nil => exact ⟨[], [], by simp [splitChars], by simp [splitChars_of_not_mem sep r hr]⟩
  | cons x xs ih =>
    obtain ⟨init, last, h1, h2⟩ := ih
    by_cases hx : x = sep
    · refine ⟨[] :: init, last, ?_, ?_⟩
      · simp [splitChars, hx, h1]
      · simp [splitChars, hx, h2]
    · rw [List.cons_append, splitChars_cons_ne sep x _ hx, splitChars_cons_ne sep x _ hx,
        h1, h2]
      cases init with
      | nil => exact ⟨[], x :: last, by simp, by simp⟩
      | cons i is => exact ⟨(x :: i) :: is, last, by simp, by simp⟩

theorem trimmed_parts_padded (sep : Char) (hsep : isSpace sep = false) (l c r : List Char)
    (hl : ∀ x ∈ l, isSpace x = true) (hr : ∀ x ∈ r, isSpace x = true) :
    (splitChars sep (l ++ c ++ r)).map trimChars = (splitChars sep c).map trimChars := by
  have hl2 : sep ∉ l := not_space_of_ne l hl sep hsep
  have hr2 : sep ∉ r := not_space_of_ne r hr sep hsep
  obtain ⟨init, last, h1, h2⟩ := splitChars_pad_right sep c r hr2
  rw [List.append_assoc, splitChars_pad_left sep l _ hl2, h2, h1]
  cases init with
  | nil => simp [trimChars_pad_left _ _ hl, trimChars_pad_right _ _ hr]
  | cons i is => simp [trimChars_pad_left _ _ hl, trimChars_pad_right _ _ hr]

theorem commands_padded (c c' : String) (h : padded c c') :
    trimspaceslice (Split c' ';') = trimspaceslice (Split c ';') := by
  obtain ⟨l, r, hl, hr, rfl⟩ := h
  have hd : (l ++ c ++ r).data = l.data ++ c.data ++ r.data := by
    simp [String.data_append]
  have := trimmed_parts_padded ';' (by decide) l.data c.data r.data hl hr
  simp only [trimspaceslice, Split, List.map_map, hd]
  have hf : (TrimSpace ∘ String.mk) = (String.mk ∘ trimChars) := by
    funext w
    rfl
  rw [hf, ← List.map_map, ← List.map_map, this]

theorem commands_Join_cons (c d : String) (ds : List String) :
    trimspaceslice (Split (Join (c :: d :: ds) ';') ';')
      = trimspaceslice (Split c ';') ++ trimspaceslice (Split (Join (d :: ds) ';') ';') := by
  simp only [Join, Split, trimspaceslice, List.map, joinChars, splitChars_append_sep_all,
    List.map_append]

theorem Join_singleton (c : String) : Join [c] ';' = c := rfl

theorem commands_Join_padded (cs cs' : List String) (h : List.Forall₂ padded cs cs') :
    trimspaceslice (Split (Join cs' ';') ';') = trimspaceslice (Split (Join cs ';') ';') := by
  induction h with
  | nil => rfl
  | cons hc hrest ih =>
    cases hrest with
    | nil => rw [Join_singleton, Join_singleton]; exact commands_padded _ _ hc
    | cons hd hds =>
      rw [commands_Join_cons, commands_Join_cons, ih, commands_padded _ _ hc]

/-- C17: white space around the commands is insignificant: when every string of `cs'` is
the corresponding string of `cs` with white space added before and after it, `Parse` of
`cs'` joined by `;` is `Parse` of `cs` joined by `;` (the same operations or the same
error). -/
theorem C17_whitespace_around_commands {Ty : Type} (p : protocas Ty) (cs cs' : List String)
    (h : List.Forall₂ padded cs cs') :
    Parse p (Join cs' ';') = Parse p (Join cs ';') := by
  rw [Parse_of_commands, Parse_of_commands, commands_Join_padded cs cs' h]

/-- C17, at the script of `main`: with the space after its `;` it parses like the script
without that space. -/
theorem C17_whitespace_around_commands_witness :
    Parse mainSession "WRITE kotor:field kotstmt:field; WRITE kastor:field kotstmt:field" =
      Parse mainSession "WRITE kotor:field kotstmt:field;WRITE kastor:field kotstmt:field" :=
  C17_whitespace_around_commands mainSession
    ["WRITE kotor:field kotstmt:field", "WRITE kastor:field kotstmt:field"]
    ["WRITE kotor:field kotstmt:field", " WRITE kastor:field kotstmt:field"]
    (List.Forall₂.cons ⟨"", "", by decide, by decide, rfl⟩
      (List.Forall₂.cons ⟨" ", "", by decide, by decide, rfl⟩ List.Forall₂.nil))


/-! ## Totality and the tables -/

theorem resolveNames_ne_fault {Ty : Type} (p : protocas Ty) (op : operation) :
    resolveNames p op ≠ some Failure.indexOutOfRange := by
  unfold resolveNames
  split
  · split
    · simp
    · split <;> simp
  · split
    · split
      · simp
      · split <;> simp
    · simp

theorem parsecolons_ne_fault {Ty : Type} (p : protocas Ty) (op0 : operation)
    (src dst : String) : parsecolons p op0 src dst ≠ .error Failure.indexOutOfRange := by
  by_cases hs : src.data.count ':' = 1
  · by_cases hd : dst.data.count ':' = 1
    · obtain ⟨a, f, _, hsrc, ha, hf⟩ := Split_pair_of_count src hs
      obtain ⟨b, g, _, hdst, hb, hg⟩ := Split_pair_of_count dst hd
      subst hsrc
      subst hdst
      rw [parsecolons_name_field p op0 a f b g ha hf hb hg]
      split
      · rename_i e he
        intro h
        simp only [Except.error.injEq] at h
        subst h
        exact resolveNames_ne_fault p _ he
      · simp
    · simp [parsecolons, splitcolon_eq, hs, hd]
  · simp [parsecolons, splitcolon_eq, hs]

theorem parsecmd_ne_fault {Ty : Type} (p : protocas Ty) (cmd : String) :
    parsecmd p cmd ≠ .error Failure.indexOutOfRange := by
  rcases hparts : trimspaceslice (Split cmd ' ') with _ | ⟨t, _ | ⟨u, us⟩⟩
  · exact absurd hparts (tokens_ne_nil cmd ' ')
  · rw [parsecmd_short p cmd t hparts]
    simp
  · rw [parsecmd_tokens p cmd t u us hparts]
    split
    · split
      · exact parsecolons_ne_fault p _ _ _
      · simp
    · split
      · split
        · exact parsecolons_ne_fault p _ _ _
        · simp
      · simp

theorem Parse.loop_error_inv {Ty : Type} (p : protocas Ty) (cs : List String)
    (acc : List operation) (e : Failure) (h : Parse.loop p cs acc = .error e) :
    ∃ c ∈ cs, parsecmd p c = .error e := by
  induction cs generalizing acc with
  | nil => simp [Parse.loop] at h
  | cons c cs ih =>
    rw [Parse.loop] at h
    cases hc : parsecmd p c with
    | error e2 =>
      simp only [hc, Except.error.injEq] at h
      subst h
      exact ⟨c, by simp, hc⟩
    | ok o =>
      simp only [hc] at h
      obtain ⟨d, hd, hde⟩ := ih _ h
      exact ⟨d, by simp [hd], hde⟩

/-- C18: `Parse` is total: for every session and every input it returns an operation list
or an error built by `fmt.Errorf`, and no index expression of `Parse`, `parsecmd`,
`parsecolons` is out of range: neither `parsecmd` nor `Parse` ends in the index fault, the
token list of a command is never empty, and the two parts of a successful `splitcolon`
are there. -/
theorem C18_Parse_total {Ty : Type} (p : protocas Ty) (script : String) :
    ((∃ ops, Parse p script = .ok ops) ∨ (∃ msg, Parse p script = .error (Failure.err msg))) ∧
    Parse p script ≠ .error Failure.indexOutOfRange ∧
    (∀ cmd, parsecmd p cmd ≠ .error Failure.indexOutOfRange) ∧
    (∀ cmd, ∃ p0, index (trimspaceslice (Split cmd ' ')) 0 = .ok p0) ∧
    (∀ t parts, splitcolon t = .ok parts →
      ∃ a b, index parts 0 = .ok a ∧ index parts 1 = .ok b) := by
  have hne : Parse p script ≠ .error Failure.indexOutOfRange := by
    intro h
    obtain ⟨c, _, hc⟩ := Parse.loop_error_inv p _ [] _ h
    exact parsecmd_ne_fault p c hc
  refine ⟨?_, hne, parsecmd_ne_fault p, ?_, ?_⟩
  · cases h : Parse p script with
    | ok ops => exact Or.inl ⟨ops, rfl⟩
    | error e =>
      cases e with
      | err msg => exact Or.inr ⟨msg, rfl⟩
      | indexOutOfRange => exact absurd h hne
  · intro cmd
    have hx := tokens_ne_nil cmd ' '
    cases hs : trimspaceslice (Split cmd ' ') with
    | nil => exact absurd hs hx
    | cons a as => exact ⟨a, rfl⟩
  · intro t parts hp
    rw [splitcolon_eq] at hp
    by_cases h : t.data.count ':' = 1
    · rw [if_pos h] at hp
      cases hp
      obtain ⟨a, b, hab, _⟩ := Split_pair_of_count t h
      exact ⟨a, b, by rw [hab]; rfl, by rw [hab]; rfl⟩
    · rw [if_neg h] at hp
      cases hp

/-- C18, at the script of `main` in the session of `main` and at the token `a:f`. -/
theorem C18_Parse_total_witness :
    ((∃ ops, Parse mainSession
        "WRITE kotor:field kotstmt:field; WRITE kastor:field kotstmt:field" = .ok ops) ∨
      (∃ msg, Parse mainSession
        "WRITE kotor:field kotstmt:field; WRITE kastor:field kotstmt:field"
          = .error (Failure.err msg))) ∧
    (∃ a b, index ["a", "f"] 0 = .ok a ∧ index ["a", "f"] 1 = .ok b) :=
  have h := C18_Parse_total mainSession
    "WRITE kotor:field kotstmt:field; WRITE kastor:field kotstmt:field"
  ⟨h.1, h.2.2.2.2 "a:f" ["a", "f"] rfl⟩

/-- Resolution is monotone in the keys of the two tables. -/
theorem resolveNames_mono {Ty Ty2 : Type} (p : protocas Ty) (q : protocas Ty2)
    (hs : ∀ k, (p.statements k).isSome → (q.statements k).isSome)
    (hd : ∀ k, (p.data k).isSome → (q.data k).isSome) (op : operation)
    (hk : op.action = OP_READ ∨ op.action = OP_WRITE)
    (h : resolveNames p op = none) : resolveNames q op = none := by
  obtain ⟨hr, hw⟩ := resolveNames_none p op h
  unfold resolveNames
  rcases hk with ha | ha
  · obtain ⟨h1, h2⟩ := hr ha
    have h3 := hs _ h1
    have h4 := hd _ h2
    simp [ha, Option.isSome_iff_ne_none.1 h3, Option.isSome_iff_ne_none.1 h4]
  · obtain ⟨h1, h2⟩ := hw ha
    have h3 := hd _ h1
    have h4 := hs _ h2
    have hne : ¬ op.action = OP_READ := by rw [ha]; decide
    simp [ha, hne, Option.isSome_iff_ne_none.1 h3, Option.isSome_iff_ne_none.1 h4]
    intro h5
    exact absurd h5 (by decide)

theorem parsecmd_mono {Ty Ty2 : Type} (p : protocas Ty) (q : protocas Ty2)
    (hs : ∀ k, (p.statements k).isSome → (q.statements k).isSome)
    (hd : ∀ k, (p.data k).isSome → (q.data k).isSome) (cmd : String) (op : operation)
    (h : parsecmd p cmd = .ok op) : parsecmd q cmd = .ok op := by
  obtain ⟨k, hk, htok, h1, h2, h3, h4, hres⟩ := parsecmd_ok_inv_strong p cmd op h
  have hk2 : op.action = OP_READ ∨ op.action = OP_WRITE := by
    rcases hk with hh | hh
    · exact Or.inl hh.2
    · exact Or.inr hh.2
  exact parsecmd_of_tokens q cmd k op hk htok h1 h2 h3 h4
    (resolveNames_mono p q hs hd op hk2 hres)

/-- C19: parsing is monotone in the symbol tables: when `Parse` of a script succeeds in
the session `p`, it succeeds with the same operations in every session `q` whose statement
table and data table have all the keys of those of `p`; and the session after a call of
`AddStatement` or `AddDataType` has all the keys of the session before it. -/
theorem C19_Parse_monotone {Ty Ty2 : Type} (p : protocas Ty) (q : protocas Ty2)
    (script : String) (ops : List operation)
    (hs : ∀ k, (p.statements k).isSome → (q.statements k).isSome)
    (hd : ∀ k, (p.data k).isSome → (q.data k).isSome)
    (h : Parse p script = .ok ops) :
    Parse q script = .ok ops ∧
    (∀ name value k, (p.statements k).isSome →
      ((AddStatement p name value).2.statements k).isSome) ∧
    (∀ name value k, (p.data k).isSome → ((AddStatement p name value).2.data k).isSome) ∧
    (∀ name typ k, (p.statements k).isSome →
      ((AddDataType p name typ).2.statements k).isSome) ∧
    (∀ name typ k, (p.data k).isSome → ((AddDataType p name typ).2.data k).isSome) := by
  refine ⟨?_, ?_, ?_, ?_, ?_⟩
  · obtain ⟨os, hos, rfl⟩ := Parse.loop_ok_inv p _ [] ops h
    have hq : List.Forall₂ (fun c o => parsecmd q c = .ok o)
        (trimspaceslice (Split script ';')) ops :=
      hos.imp (fun c o hc => parsecmd_mono p q hs hd c o hc)
    have := Parse.loop_ok q _ ops hq []
    simpa [Parse] using this
  · intro name value k hk
    unfold AddStatement
    split
    · exact hk
    · by_cases hkn : k = name
      · subst hkn
        simp
      · simp only [Function.update_noteq hkn]
        exact hk
  · intro name value k hk
    unfold AddStatement
    split <;> exact hk
  · intro name typ k hk
    unfold AddDataType
    split <;> exact hk
  · intro name typ k hk
    unfold AddDataType
    split
    · exact hk
    · by_cases hkn : k = name
      · subst hkn
        simp
      · simp only [Function.update_noteq hkn]
        exact hk

/-- C19, from the session of `main` to that session with one more statement. -/
theorem C19_Parse_monotone_witness :
    Parse (AddStatement mainSession "other" "text").2
        "WRITE kotor:field kotstmt:field; WRITE kastor:field kotstmt:field" =
      .ok [{ action := OP_WRITE, src := "kotor", srcfield := "field",
             dst := "kotstmt", dstfield := "field" },
           { action := OP_WRITE, src := "kastor", srcfield := "field",
             dst := "kotstmt", dstfield := "field" }] :=
  have hkeys := (C19_Parse_monotone mainSession mainSession
    "WRITE kotor:field kotstmt:field; WRITE kastor:field kotstmt:field" _
    (fun _ hk => hk) (fun _ hk => hk) rfl).2
  (C19_Parse_monotone mainSession (AddStatement mainSession "other" "text").2
    "WRITE kotor:field kotstmt:field; WRITE kastor:field kotstmt:field" _
    (hkeys.1 "other" "text") (hkeys.2.1 "other" "text") rfl).1


/-! ## Printing an operation and parsing it again -/

theorem command_no_semicolon (script c : String)
    (hc : c ∈ trimspaceslice (Split script ';')) : ';' ∉ c.data := by
  simp only [trimspaceslice, Split, List.mem_map] at hc
  obtain ⟨r, ⟨w, hw, rfl⟩, rfl⟩ := hc
  intro hm
  exact (mem_splitChars ';' _ w hw).1 (mem_of_mem_trimChars _ _ hm)

theorem token_facts (c t : String) (ht : t ∈ trimspaceslice (Split c ' ')) :
    ' ' ∉ t.data ∧ (∀ x ∈ t.data, x ∈ c.data) ∧ TrimSpace t = t ∧
      (∀ x ∈ t.data.getLast?, isSpace x = false) := by
  simp only [trimspaceslice, Split, List.mem_map] at ht
  obtain ⟨r, ⟨w, hw, rfl⟩, rfl⟩ := ht
  obtain ⟨h1, h2⟩ := mem_splitChars ' ' _ w hw
  refine ⟨fun hm => h1 (mem_of_mem_trimChars _ _ hm),
    fun x hx => h2 x (mem_of_mem_trimChars _ _ hx), TrimSpace_idempotent _,
    trimChars_last_not_space w⟩

theorem rendered_shape (k t u : String) (hk : k = "READ" ∨ k = "WRITE")
    (ht : ' ' ∉ t.data) (hu : ' ' ∉ u.data) (hts : ';' ∉ t.data) (hus : ';' ∉ u.data)
    (htt : TrimSpace t = t) (hut : TrimSpace u = u) (hu0 : u.data ≠ [])
    (hlast : ∀ x ∈ u.data.getLast?, isSpace x = false) :
    ';' ∉ (k ++ " " ++ t ++ " " ++ u).data ∧
    TrimSpace (k ++ " " ++ t ++ " " ++ u) = k ++ " " ++ t ++ " " ++ u ∧
    trimspaceslice (Split (k ++ " " ++ t ++ " " ++ u) ' ') = [k, t, u] := by
  have hd : (k ++ " " ++ t ++ " " ++ u).data = k.data ++ ' ' :: (t.data ++ ' ' :: u.data) := by
    simp [String.data_append]
  have hd2 : k.data ++ ' ' :: (t.data ++ ' ' :: u.data)
      = (k.data ++ ' ' :: (t.data ++ [' '])) ++ u.data := by
    simp
  have hks : ' ' ∉ k.data ∧ ';' ∉ k.data ∧ TrimSpace k = k ∧
      ∀ x ∈ (k.data ++ ' ' :: (t.data ++ ' ' :: u.data)).head?, isSpace x = false := by
    rcases hk with rfl | rfl
    · refine ⟨by decide, by decide, by decide, ?_⟩
      intro x hx
      simp only [List.cons_append, List.head?_cons, Option.mem_def, Option.some.injEq] at hx
      subst hx
      decide
    · refine ⟨by decide, by decide, by decide, ?_⟩
      intro x hx
      simp only [List.cons_append, List.head?_cons, Option.mem_def, Option.some.injEq] at hx
      subst hx
      decide
  obtain ⟨hk1, hk2, hk3, hk4⟩ := hks
  refine ⟨?_, ?_, ?_⟩
  · rw [hd]
    intro hm
    simp only [List.mem_append, List.mem_cons] at hm
    rcases hm with h | h | h | h | h
    · exact hk2 h
    · revert h; decide
    · exact hts h
    · revert h; decide
    · exact hus h
  · unfold TrimSpace
    rw [trimChars_eq_self]
    · rw [hd]
      exact hk4
    · intro x hx
      rw [hd, hd2, List.getLast?_append_of_ne_nil _ hu0] at hx
      exact hlast x hx
  · rw [Split_three_tokens k t u hk1 ht hu]
    simp only [trimspaceslice, List.map, hk3, htt, hut]

theorem render_eq (op : operation) (k : String)
    (hk : (k = "READ" ∧ op.action = OP_READ) ∨ (k = "WRITE" ∧ op.action = OP_WRITE)) :
    render op = k ++ " " ++ (op.src ++ ":" ++ op.srcfield) ++ " "
      ++ (op.dst ++ ":" ++ op.dstfield) := by
  have hkind : opnames.getD op.action.toNat "" = k := by
    rcases hk with ⟨rfl, ha⟩ | ⟨rfl, ha⟩
    · rw [ha]; rfl
    · rw [ha]; rfl
  unfold render
  rw [hkind]
  apply String.ext
  simp [String.data_append]

theorem parsecmd_render {Ty : Type} (p : protocas Ty) (script c : String) (op : operation)
    (hc : c ∈ trimspaceslice (Split script ';')) (h : parsecmd p c = .ok op) :
    Parse p (render op) = .ok [op] ∧
    (∀ s ∈ [op.src, op.srcfield, op.dst, op.dstfield],
      ' ' ∉ s.data ∧ ':' ∉ s.data ∧ ';' ∉ s.data) := by
  obtain ⟨k, hk, htok, h1, h2, h3, h4, hres⟩ := parsecmd_ok_inv_strong p c op h
  have hsemi := command_no_semicolon script c hc
  obtain ⟨ht1, ht2, ht3, _⟩ :=
    token_facts c (op.src ++ ":" ++ op.srcfield) (by rw [htok]; simp)
  obtain ⟨hu1, hu2, hu3, hu4⟩ :=
    token_facts c (op.dst ++ ":" ++ op.dstfield) (by rw [htok]; simp)
  have hts : ';' ∉ (op.src ++ ":" ++ op.srcfield).data := fun hm => hsemi (ht2 _ hm)
  have hus : ';' ∉ (op.dst ++ ":" ++ op.dstfield).data := fun hm => hsemi (hu2 _ hm)
  have hu0 : (op.dst ++ ":" ++ op.dstfield).data ≠ [] := by
    rw [data_name_field]
    simp
  have hk2 : k = "READ" ∨ k = "WRITE" := by
    rcases hk with hh | hh
    · exact Or.inl hh.1
    · exact Or.inr hh.1
  obtain ⟨hr1, hr2, hr3⟩ := rendered_shape k _ _ hk2 ht1 hu1 hts hus ht3 hu3 hu0 hu4
  constructor
  · rw [render_eq op k hk, Parse_single p _ hr1 hr2,
      parsecmd_of_tokens p _ k op hk hr3 h1 h2 h3 h4 hres]
  · rw [data_name_field] at ht1 hts hu1 hus
    intro s hs
    simp only [List.mem_cons, List.mem_singleton, List.not_mem_nil, or_false] at hs
    rcases hs with rfl | rfl | rfl | rfl
    · exact ⟨fun hm => ht1 (by simp [hm]), h1, fun hm => hts (by simp [hm])⟩
    · exact ⟨fun hm => ht1 (by simp [hm]), h2, fun hm => hts (by simp [hm])⟩
    · exact ⟨fun hm => hu1 (by simp [hm]), h3, fun hm => hus (by simp [hm])⟩
    · exact ⟨fun hm => hu1 (by simp [hm]), h4, fun hm => hus (by simp [hm])⟩

/-- C20: print-then-parse round trip: for every operation `op` returned by a successful
`Parse`, the text `<KIND> <src>:<srcfield> <dst>:<dstfield>` of `op` parses in the same
session to exactly `[op]`, and the names and the fields of `op` contain no space, no `:`
and no `;`. -/
theorem C20_render_roundtrip {Ty : Type} (p : protocas Ty) (script : String)
    (ops : List operation) (h : Parse p script = .ok ops) :
    ∀ op ∈ ops,
      Parse p (render op) = .ok [op] ∧
      (∀ s ∈ [op.src, op.srcfield, op.dst, op.dstfield],
        ' ' ∉ s.data ∧ ':' ∉ s.data ∧ ';' ∉ s.data) := by
  obtain ⟨os, hos, rfl⟩ := Parse.loop_ok_inv p _ [] ops h
  intro op hop
  obtain ⟨c, hcm, hc⟩ := exists_cmd_of_mem p _ _ hos op hop
  exact parsecmd_render p script c op hcm hc

/-- C20, at the second operation of the script of `main` in the session of `main`. -/
theorem C20_render_roundtrip_witness :
    Parse mainSession (render ⟨OP_WRITE, "kastor", "field", "kotstmt", "field"⟩) =
      .ok [⟨OP_WRITE, "kastor", "field", "kotstmt", "field"⟩] ∧
    (' ' ∉ "kastor".data ∧ ':' ∉ "kastor".data ∧ ';' ∉ "kastor".data) :=
  have h := C20_render_roundtrip mainSession
    "WRITE kotor:field kotstmt:field; WRITE kastor:field kotstmt:field" _ rfl
    ⟨OP_WRITE, "kastor", "field", "kotstmt", "field"⟩ (by decide)
  ⟨h.1, h.2 "kastor" (by decide)⟩

end Pbdb
